import Mathlib

/-!
Verification development for the Bunpu probability-distribution spreadsheet.

The development shallowly embeds the core of the repository:
the distribution data model (`src/core/types.ts`), the reducer
(`src/core/reducer.ts`), the formula evaluator (`src/engine/evaluator.ts`)
and the reactive graph (`src/engine/graph.ts`).

Numbers: the source computes with JavaScript IEEE doubles over decimal
literals.  The embedding idealises them as exact rationals.  A bespoke
rational type `Q` (numerator/denominator, gcd-normalised) is used so that
every definition evaluates by kernel reduction on concrete inputs.
-/

set_option maxRecDepth 100000

deriving instance DecidableEq for Except

namespace Bunpu

/-- Exact rational numbers with gcd-normalised representation.  Every
operation below re-normalises, so structural equality of `Q` values is
value equality. -/
structure Q where
  num : Int
  den : Nat
deriving DecidableEq, Repr

/-- Build a normalised rational from a numerator and a (positive)
denominator.  A zero denominator never arises in the embedding; it is
mapped to 0 to keep the function total. -/
def Q.norm (n : Int) (d : Nat) : Q :=
  if d = 0 then ⟨0, 1⟩
  else
    let g := n.natAbs.gcd d
    ⟨n / (g : Int), d / g⟩

def Q.ofInt (n : Int) : Q := ⟨n, 1⟩

instance : OfNat Q n := ⟨⟨(n : Int), 1⟩⟩

def Q.add (a b : Q) : Q := Q.norm (a.num * b.den + b.num * a.den) (a.den * b.den)

def Q.neg (a : Q) : Q := ⟨-a.num, a.den⟩

def Q.sub (a b : Q) : Q := a.add b.neg

def Q.mul (a b : Q) : Q := Q.norm (a.num * b.num) (a.den * b.den)

/-- Multiplicative inverse; `inv 0 = 0` keeps the function total (the
source would produce an IEEE `Infinity`; all call sites in the embedding
are guarded against a zero divisor). -/
def Q.inv (a : Q) : Q :=
  if a.num = 0 then ⟨0, 1⟩
  else if a.num > 0 then ⟨(a.den : Int), a.num.natAbs⟩
  else ⟨-(a.den : Int), a.num.natAbs⟩

def Q.div (a b : Q) : Q := a.mul b.inv

def Q.pow (a : Q) : Nat → Q
  | 0 => 1
  | n + 1 => (Q.pow a n).mul a

instance : Add Q := ⟨Q.add⟩
instance : Sub Q := ⟨Q.sub⟩
instance : Mul Q := ⟨Q.mul⟩
instance : Div Q := ⟨Q.div⟩
instance : Neg Q := ⟨Q.neg⟩

instance : LE Q := ⟨fun a b => a.num * b.den ≤ b.num * a.den⟩
instance : LT Q := ⟨fun a b => a.num * b.den < b.num * a.den⟩

instance (a b : Q) : Decidable (a ≤ b) :=
  inferInstanceAs (Decidable (a.num * b.den ≤ b.num * a.den))

instance (a b : Q) : Decidable (a < b) :=
  inferInstanceAs (Decidable (a.num * b.den < b.num * a.den))

def Q.abs (a : Q) : Q := if a.num < 0 then a.neg else a

def Q.min (a b : Q) : Q := if a ≤ b then a else b

def Q.max (a b : Q) : Q := if a ≤ b then b else a

/-- Floor to an integer (JavaScript `Math.floor`). -/
def Q.floor (a : Q) : Int :=
  if a.num ≥ 0 then a.num / (a.den : Int)
  else -((-a.num + (a.den : Int) - 1) / (a.den : Int))

/-- Rationals extended with `−∞` and `+∞`: the sort keys and component
bounds of the source are JavaScript numbers that include the infinities
(tails extend to `±Infinity`). -/
inductive XQ where
  | negInf : XQ
  | fin : Q → XQ
  | posInf : XQ
deriving DecidableEq, Repr

def XQ.le : XQ → XQ → Bool
  | .negInf, _ => true
  | _, .posInf => true
  | .fin a, .fin b => decide (a ≤ b)
  | .posInf, .fin _ => false
  | .posInf, .negInf => false
  | .fin _, .negInf => false

def XQ.lt (a b : XQ) : Bool := XQ.le a b && !(XQ.le b a)

/-- Source `src/core/types.ts`: the three component kinds of a distribution
mixture.  Tail parameters (`params`) are a name/value mapping; only the
exponential family's `lambda` is consulted by the embedded operations. -/
inductive DistComponent where
  | atom (x p : Q)
  | bin (a b p repr : Q) (shape : String)
  | tail (side : String) (x0 mass : Q) (family : String)
      (params : List (String × Q)) (cap : Option Q)
deriving DecidableEq, Repr

namespace DistComponent

/-- Probability mass carried by a component (`p` for atoms and bins,
`mass` for tails). -/
def massOf : DistComponent → Q
  | .atom _ p => p
  | .bin _ _ p _ _ => p
  | .tail _ _ m _ _ _ => m

/-- Rescale the mass of a component by a factor (used by mixtures). -/
def scaleMass (f : Q) : DistComponent → DistComponent
  | .atom x p => .atom x (p.mul f)
  | .bin a b p r s => .bin a b (p.mul f) r s
  | .tail s x0 m fam ps c => .tail s x0 (m.mul f) fam ps c

/-- Source `reducer.ts` `getStart`: leftmost point covered by a component
(`−Infinity` for a left tail). -/
def start : DistComponent → XQ
  | .atom x _ => .fin x
  | .bin a _ _ _ _ => .fin a
  | .tail side x0 _ _ _ _ => if side = "left" then .negInf else .fin x0

/-- Source `reducer.ts` `getEnd`: rightmost point covered by a component
(`+Infinity` for a right tail). -/
def stop : DistComponent → XQ
  | .atom x _ => .fin x
  | .bin _ b _ _ _ => .fin b
  | .tail side x0 _ _ _ _ => if side = "left" then .fin x0 else .posInf

/-- Sort key of a component inside a distribution: a left tail sorts as
`−∞`, an atom at its `x`, a bin at its `a`, a right tail at its `x0`
(spec §3, matched by the repository's `Dist` sorting test). -/
def sortKey : DistComponent → XQ
  | .atom x _ => .fin x
  | .bin a _ _ _ _ => .fin a
  | .tail side x0 _ _ _ _ => if side = "left" then .negInf else .fin x0

end DistComponent

/-- The distribution container: an ordered list of components.  The
`dist.ts` source is not part of the provided sources; the container and
its operations are modelled from the spec (§3, §4.2) and the repository's
`dist` test file. -/
structure Dist where
  components : List DistComponent
deriving DecidableEq, Repr

/-- Insert into a sorted list, keeping earlier-inserted equal keys in
front (stable, like the JavaScript array sort the source relies on). -/
def insertSorted (le : α → α → Bool) (x : α) : List α → List α
  | [] => [x]
  | y :: ys => if le x y then x :: y :: ys else y :: insertSorted le x ys

/-- Stable insertion sort (executable stand-in for the stable
`Array.prototype.sort` of the source). -/
def sortByKey (le : α → α → Bool) : List α → List α
  | [] => []
  | x :: xs => insertSorted le x (sortByKey le xs)

/-- Modelled from the spec: the `Dist` constructor orders its components
by the position sort key (§3; "should sort components" test). -/
def Dist.ofComponents (l : List DistComponent) : Dist :=
  ⟨sortByKey (fun c1 c2 => XQ.le c1.sortKey c2.sortKey) l⟩

def Dist.totalMass (d : Dist) : Q :=
  d.components.foldl (fun acc c => acc.add c.massOf) 0

/-- Numerical tolerance used by normalisation ("total = 1 within numerical
tolerance", spec §3); the concrete value is not observable in any claim. -/
def normEps : Q := ⟨1, 1000000000⟩

/-- Modelled from the spec (§4.2 Normalize): rescale every component's
mass so the total becomes 1, when the total is positive and not already
within tolerance of 1. -/
def Dist.normalize (d : Dist) : Dist :=
  let t := d.totalMass
  if 0 < t ∧ normEps < (t.sub 1).abs then
    ⟨d.components.map (DistComponent.scaleMass t.inv)⟩
  else d

def qOfNat (n : Nat) : Q := ⟨(n : Int), 1⟩

/-- Integer square root approximation used to represent the irrational
`√(12·v)` of the bin⊕bin convolution (an IEEE value in the source) by a
rational with 12 fractional digits. -/
def Q.sqrtApprox (a : Q) : Q :=
  if a.num ≤ 0 then 0
  else Q.norm (Int.ofNat (Nat.sqrt (a.num.toNat * a.den * 10 ^ 24))) (a.den * 10 ^ 12)

/-- Modelled from the spec (§4.1): pairwise convolution of two non-tail
components; any pair involving a tail is dropped (`none`). -/
def convolvePair : DistComponent → DistComponent → Option DistComponent
  | .atom x1 p1, .atom x2 p2 => some (.atom (x1 + x2) (p1.mul p2))
  | .atom x1 p1, .bin a b p2 r s => some (.bin (a + x1) (b + x1) (p1.mul p2) (r + x1) s)
  | .bin a b p1 r s, .atom x2 p2 => some (.bin (a + x2) (b + x2) (p1.mul p2) (r + x2) s)
  | .bin a1 b1 p1 _ _, .bin a2 b2 p2 _ _ =>
      let w1 := b1 - a1
      let w2 := b2 - a2
      let width := Q.sqrtApprox (w1 * w1 + w2 * w2)
      let center := (a1 + b1) / 2 + (a2 + b2) / 2
      some (.bin (center - width / 2) (center + width / 2) (p1.mul p2) center "uniform")
  | _, _ => none

/-- Modelled from the spec (§4.2 Add): independent sum as the Cartesian
product of pairwise convolutions. -/
def Dist.add (d1 d2 : Dist) : Dist :=
  Dist.ofComponents
    (d1.components.foldr
      (fun c1 acc =>
        (d2.components.filterMap (fun c2 => convolvePair c1 c2)) ++ acc) [])

/-- Modelled from the spec (§4.2 Scale): multiply atom positions by `k`,
map a bin `[a, b]` to `[min(ka, kb), max(ka, kb)]` with `repr` scaled,
leave tails unchanged. -/
def Dist.scale (d : Dist) (k : Q) : Dist :=
  Dist.ofComponents (d.components.map fun c => match c with
    | .atom x p => .atom (x * k) p
    | .bin a b p r s => .bin (Q.min (a * k) (b * k)) (Q.max (a * k) (b * k)) p (r * k) s
    | .tail sd x0 m f ps cp => .tail sd x0 m f ps cp)

/-- Modelled from the spec (§4.2 Subtract): `D₁ ⊕ scale(D₂, −1)`. -/
def Dist.sub (d1 d2 : Dist) : Dist := d1.add (d2.scale (-1))

/-- Modelled from the spec (§4.2 Mix): `D₁.mix(D₂, p)` rescales `D₁`'s
component masses by `1 − p` and `D₂`'s by `p`, then concatenates. -/
def Dist.mix (d1 d2 : Dist) (p : Q) : Dist :=
  Dist.ofComponents
    (d1.components.map (DistComponent.scaleMass (Q.sub 1 p)) ++
     d2.components.map (DistComponent.scaleMass p))

/-- Rate parameter of an exponential tail (`params["lambda"]`; 1 when the
mapping has no such entry, a case no embedded operation produces). -/
def tailLambda (ps : List (String × Q)) : Q :=
  match ps.find? (fun e => e.1 = "lambda") with
  | some e => e.2
  | none => 1

/-- Modelled from the spec (§4.2 Mean): `Σ p·x` over atoms,
`Σ p·(a+b)/2` over bins, `mass·(x0 ± 1/λ)` for exponential tails; a
non-exponential tail (pass-through data) contributes `mass·x0`. -/
def Dist.mean (d : Dist) : Q :=
  d.components.foldl
    (fun acc c => match c with
      | .atom x p => acc + p * x
      | .bin a b p _ _ => acc + p * ((a + b) / 2)
      | .tail side x0 m fam ps _ =>
          if fam = "exp" then
            let lam := tailLambda ps
            if side = "right" then acc + m * (x0 + lam.inv)
            else acc + m * (x0 - lam.inv)
          else acc + m * x0)
    0

/-- Modelled from the spec (§4.2 Reciprocal): atoms away from 0 map to
`1/x`; a bin not crossing 0 maps to `[1/b, 1/a]`; a bin straddling 0 is
split at 0 and each half becomes an atom at the reciprocal of the half's
midpoint; a tail becomes an atom at the reciprocal of its mean position.
Components whose reciprocal is undefined at 0 are dropped (documented
mass loss). -/
def Dist.reciprocal (d : Dist) : Dist :=
  Dist.ofComponents (d.components.foldr (fun c acc => (match c with
    | .atom x p => if x = 0 then [] else [.atom x.inv p]
    | .bin a b p _ s =>
        if 0 < a ∨ b < 0 then [.bin b.inv a.inv p ((b.inv + a.inv) / 2) s]
        else
          let w := b - a
          (if a < 0 then [.atom ((a / 2).inv) (p * (a.neg / w))] else []) ++
          (if 0 < b then [.atom ((b / 2).inv) (p * (b / w))] else [])
    | .tail side x0 m fam ps _ =>
        let lam := tailLambda ps
        let mu := if fam = "exp" then (if side = "right" then x0 + lam.inv else x0 - lam.inv) else x0
        if mu = 0 then [] else [.atom mu.inv m]) ++ acc) [])

/-- Source `src/core/reducer.ts` `ReduceParams`. -/
structure ReduceParams where
  targetN : Q
  impactCenter : Option Q
  impactWidthWeight : Option Q
  tau : Option Q
  boundaries : Option (List Q)
deriving Repr

/-- Source `Number.MAX_VALUE`, the importance the reducer assigns to tails so
that they are never chosen for merging. -/
def jsMaxValue : Q := ⟨2 ^ 1024 - 2 ^ 971, 1⟩

/-- Source `reducer.ts` `getImp`: importance `p·(|repr − c| + w·width)` of a
component (`repr = x`, width 0 for an atom); tails get `Number.MAX_VALUE`. -/
def getImp (c w : Q) : DistComponent → Q
  | .atom x p => p * (Q.abs (x - c))
  | .bin a b p repr _ => p * (Q.abs (repr - c) + w * (b - a))
  | .tail _ _ _ _ _ _ => jsMaxValue

/-- Source `reducer.ts` `splitAtBoundaries`: split, proportionally by width,
every bin whose interior strictly contains a boundary point; one pass per
boundary, in boundary-list order. -/
def splitAtBoundaries (comps : List DistComponent) (boundaries : List Q) :
    List DistComponent :=
  boundaries.foldl
    (fun result b =>
      result.foldr
        (fun c acc => (match c with
          | .bin a b2 p _ s =>
              if a < b ∧ b < b2 then
                let w := b2 - a
                let w1 := b - a
                let w2 := b2 - b
                [.bin a b (p * (w1 / w)) ((a + b) / 2) s,
                 .bin b b2 (p * (w2 / w)) ((b + b2) / 2) s]
              else [c]
          | _ => [c]) ++ acc) [])
    comps

/-- Source `reducer.ts` `hasBoundaryBetween`: a merge of adjacent components is
blocked when some boundary `b` satisfies `end₁ ≤ b ≤ start₂`. -/
def hasBoundaryBetween (end1 start2 : XQ) (bounds : List Q) : Bool :=
  bounds.any fun b => XQ.le end1 (.fin b) && XQ.le (.fin b) start2

/-- Source `reducer.ts` `mergeComponents`: merge a buffer of components into a
single uniform bin `[min start, max end]` carrying the total mass, with
`repr` the mass-weighted mean of the member `repr`s.  As in the source, a
tail member (which no call site produces) contributes its mass but `0`
for its start, end and mean. -/
def mergeComponents (comps : List DistComponent) : DistComponent :=
  let info : List (Q × Q × Q × Q) := comps.map fun c => match c with
    | .atom x p => (x, x, x, p)
    | .bin a b p r _ => (a, b, r, p)
    | .tail _ _ m _ _ _ => (0, 0, 0, m)
  let totalP : Q := info.foldl (fun acc i => acc + i.2.2.2) 0
  let weightedRepr : Q := info.foldl (fun acc i => acc + i.2.2.1 * i.2.2.2) 0
  let minA : Q := match info with
    | [] => 0
    | i :: is => is.foldl (fun acc j => Q.min acc j.1) i.1
  let maxB : Q := match info with
    | [] => 0
    | i :: is => is.foldl (fun acc j => Q.max acc j.2.1) i.2.1
  let newRepr := if 0 < totalP then weightedRepr / totalP else (minA + maxB) / 2
  .bin minA maxB totalP newRepr "uniform"

def DistComponent.isTail : DistComponent → Bool
  | .tail _ _ _ _ _ _ => true
  | _ => false

/-- Source `reducer.ts` `mergeValleys` buffer flush: an empty buffer adds
nothing, a singleton is passed through, two or more members merge. -/
def flushBuffer (result buffer : List DistComponent) : List DistComponent :=
  match buffer with
  | [] => result
  | [c] => result ++ [c]
  | _ => result ++ [mergeComponents buffer]

/-- Source `reducer.ts` `mergeValleys`: accumulate consecutive components of
importance below `tau` into a buffer, flushing when a boundary sits at
the junction or a high-importance component appears. -/
def mergeValleysGo (tau : Q) (bounds : List Q) (imp : DistComponent → Q) :
    List DistComponent → List DistComponent → List DistComponent → List DistComponent
  | [], result, buffer => flushBuffer result buffer
  | c :: rest, result, buffer =>
      if imp c < tau then
        match buffer.getLast? with
        | some last =>
            if hasBoundaryBetween last.stop c.start bounds then
              mergeValleysGo tau bounds imp rest (flushBuffer result buffer) [c]
            else mergeValleysGo tau bounds imp rest result (buffer ++ [c])
        | none => mergeValleysGo tau bounds imp rest result [c]
      else mergeValleysGo tau bounds imp rest (flushBuffer result buffer ++ [c]) []

def mergeValleys (comps : List DistComponent) (tau : Q) (bounds : List Q)
    (imp : DistComponent → Q) : List DistComponent :=
  mergeValleysGo tau bounds imp comps [] []

/-- Finite value of an `XQ` (total stand-in; only applied where
finiteness was already established). -/
def XQ.finQ : XQ → Q
  | .fin q => q
  | _ => 0

/-- Source `reducer.ts` `fastBucketReduce`: histogram reduction into
`targetN` equal-width buckets by component center, merging each bucket
and re-splitting at boundaries.  With a tail present the range becomes
infinite and the source's bucket-index arithmetic produces `NaN`,
crashing on an out-of-range array access; that path is an error here. -/
def fastBucketReduce (comps : List DistComponent) (targetN : Q)
    (bounds : List Q) : Except String (List DistComponent) :=
  let minX := comps.foldl
    (fun acc c => if XQ.lt c.start acc then c.start else acc) XQ.posInf
  let maxX := comps.foldl
    (fun acc c => if XQ.lt acc c.stop then c.stop else acc) XQ.negInf
  if XQ.le maxX minX then .ok comps
  else
    match minX, maxX with
    | .fin mn, .fin mx =>
        let nb : Nat := if targetN ≤ 0 then 0 else (Q.floor targetN).toNat
        if nb = 0 then .error "TypeError: invalid bucket count"
        else
          let bucketSize := (mx - mn) / targetN
          let idxOf : DistComponent → Except String Nat := fun c =>
            let center := (c.start.finQ + c.stop.finQ) / 2
            let raw : Int := Q.floor ((center - mn) / bucketSize)
            let clamped : Int := if raw < 0 then 0 else raw
            if Q.ofInt clamped ≥ targetN then .ok (nb - 1)
            else if clamped.toNat < nb then .ok clamped.toNat
            else .error "TypeError: bucket index out of range"
          match comps.mapM (fun c => (idxOf c).map (fun i => (i, c))) with
          | .error e => .error e
          | .ok tagged =>
              let result := (List.range nb).foldr
                (fun i acc =>
                  let bucket := (tagged.filter (fun t => t.1 = i)).map (·.2)
                  if bucket.isEmpty then acc else mergeComponents bucket :: acc)
                []
              if bounds.length > 0 then .ok (splitAtBoundaries result bounds)
              else .ok result
    | _, _ => .error "TypeError: non-finite bucket range"

/-- One scan of `greedyReduce`'s pair search: the first adjacent pair of
minimal cost whose junction is not blocked by a boundary and whose
members are not tails. -/
def findBestPair (imp : DistComponent → Q) (bounds : List Q) :
    Nat → List DistComponent → Option (Nat × Q)
  | i, c1 :: c2 :: rest =>
      let tailBest := findBestPair imp bounds (i + 1) (c2 :: rest)
      if hasBoundaryBetween c1.stop c2.start bounds ∨ c1.isTail ∨ c2.isTail then
        tailBest
      else
        let cost := imp c1 + imp c2
        match tailBest with
        | none => some (i, cost)
        | some (j, cj) => if cost ≤ cj then some (i, cost) else some (j, cj)
  | _, _ => none

/-- Replace the components at positions `i` and `i + 1` by their merge
(the `splice` of the source). -/
def mergeAt : Nat → List DistComponent → List DistComponent
  | 0, c1 :: c2 :: rest => mergeComponents [c1, c2] :: rest
  | 0, l => l
  | _ + 1, [] => []
  | n + 1, c :: rest => c :: mergeAt n rest

/-- Source `reducer.ts` `greedyReduce` loop body, fuelled by the component count
(each merge shortens the list, so the fuel is never exhausted first). -/
def greedyLoop (targetN : Q) (bounds : List Q) (imp : DistComponent → Q) :
    Nat → List DistComponent → List DistComponent
  | 0, current => current
  | fuel + 1, current =>
      if qOfNat current.length > targetN then
        match findBestPair imp bounds 0 current with
        | none => current
        | some (i, _) => greedyLoop targetN bounds imp fuel (mergeAt i current)
      else current

def greedyReduce (comps : List DistComponent) (targetN : Q)
    (bounds : List Q) (imp : DistComponent → Q) : List DistComponent :=
  greedyLoop targetN bounds imp (comps.length + 1) comps

/-- Source `reducer.ts` `reduce` with the optional parameters already resolved
to the defaults the source applies (`impactCenter ?? 0`,
`impactWidthWeight ?? 0`, `boundaries || []`, valley merge only when
`tau` is present). -/
def reduceCore (dist : Dist) (targetN : Q) (c w : Q) (tau : Option Q)
    (bounds : List Q) : Except String Dist := do
  let d1 := dist.normalize
  let comps0 := d1.components
  let comps1 := if bounds.length > 0 then splitAtBoundaries comps0 bounds else comps0
  let imp := getImp c w
  let comps2 := match tau with
    | some t => mergeValleys comps1 t bounds imp
    | none => comps1
  let comps3 ←
    if qOfNat comps2.length > Q.max 1000 (targetN * 4) then
      fastBucketReduce comps2 (targetN * 2) bounds
    else pure comps2
  let comps4 :=
    if qOfNat comps3.length > targetN then greedyReduce comps3 targetN bounds imp
    else comps3
  pure (Dist.ofComponents comps4)

/-- Source `reducer.ts` `reduce`. -/
def reduce (dist : Dist) (params : ReduceParams) : Except String Dist :=
  reduceCore dist params.targetN (params.impactCenter.getD 0)
    (params.impactWidthWeight.getD 0) params.tau (params.boundaries.getD [])

/-- Source `evaluator.ts` token kinds. -/
inductive TokenType where
  | NUMBER | ID | PLUS | MINUS | MUL | DIV | LPAREN | RPAREN | COMMA | COLON
deriving DecidableEq, Repr

/-- Printable name of a token type, used in parser error messages. -/
def TokenType.tn : TokenType → String
  | .NUMBER => "NUMBER"
  | .ID => "ID"
  | .PLUS => "PLUS"
  | .MINUS => "MINUS"
  | .MUL => "MUL"
  | .DIV => "DIV"
  | .LPAREN => "LPAREN"
  | .RPAREN => "RPAREN"
  | .COMMA => "COMMA"
  | .COLON => "COLON"

structure Token where
  type : TokenType
  value : String
deriving DecidableEq, Repr

/-- JavaScript `\s` for the characters the formulas can contain. -/
def isWS (c : Char) : Bool := c = ' ' || c = '\t' || c = '\n' || c = '\r'

def isDigitDot (c : Char) : Bool := c.isDigit || c = '.'

def isAlphaU (c : Char) : Bool := c.isAlpha || c = '_'

def isAlnumU (c : Char) : Bool := c.isAlphanum || c = '_'

/-- Source `evaluator.ts` `tokenize`, fuelled by the input length (every
iteration consumes at least one character). -/
def tokenizeGo : Nat → List Char → Except String (List Token)
  | 0, _ => .error "tokenizer fuel exhausted"
  | _, [] => .ok []
  | fuel + 1, c :: rest =>
      if isWS c then tokenizeGo fuel rest
      else if isDigitDot c then
        let run := c :: rest.takeWhile isDigitDot
        let rest2 := rest.dropWhile isDigitDot
        (tokenizeGo fuel rest2).map (fun ts => ⟨.NUMBER, String.mk run⟩ :: ts)
      else if isAlphaU c then
        let run := c :: rest.takeWhile isAlnumU
        let rest2 := rest.dropWhile isAlnumU
        (tokenizeGo fuel rest2).map (fun ts => ⟨.ID, String.mk run⟩ :: ts)
      else
        let sym : Except String Token :=
          if c = '+' then .ok ⟨.PLUS, "+"⟩
          else if c = '-' then .ok ⟨.MINUS, "-"⟩
          else if c = '*' then .ok ⟨.MUL, "*"⟩
          else if c = '/' then .ok ⟨.DIV, "/"⟩
          else if c = '(' then .ok ⟨.LPAREN, "("⟩
          else if c = ')' then .ok ⟨.RPAREN, ")"⟩
          else if c = ',' then .ok ⟨.COMMA, ","⟩
          else if c = ':' then .ok ⟨.COLON, ":"⟩
          else .error ("Unknown character: " ++ String.mk [c])
        match sym with
        | .error e => .error e
        | .ok t => (tokenizeGo fuel rest).map (fun ts => t :: ts)

def tokenize (s : String) : Except String (List Token) :=
  tokenizeGo (s.length + 1) s.toList

def digitsToNat (cs : List Char) : Nat :=
  cs.foldl (fun acc c => acc * 10 + (c.toNat - 48)) 0

/-- ASCII upper-casing (kernel-computable stand-in for the
`toUpperCase` calls of the source). -/
def upperChar (c : Char) : Char :=
  if 'a' ≤ c ∧ c ≤ 'z' then Char.ofNat (c.toNat - 32) else c

def strUpper (s : String) : String := String.mk (s.toList.map upperChar)

/-- JavaScript `parseFloat` restricted to the `[0-9.]+` strings a NUMBER
token can hold: the longest prefix of the form `digits[.digits]` is the
value.  A token with no such prefix (`"."`, `".."`) would be IEEE `NaN`
in the source; it is mapped to 0 here, a case no embedded theorem
exercises. -/
def parseFloatQ (s : String) : Q :=
  let cs := s.toList
  let intPart := cs.takeWhile Char.isDigit
  let rest := cs.dropWhile Char.isDigit
  let frac :=
    match rest with
    | '.' :: r => r.takeWhile Char.isDigit
    | _ => []
  if intPart.isEmpty ∧ frac.isEmpty then 0
  else Q.norm
    (Int.ofNat (digitsToNat intPart * 10 ^ frac.length + digitsToNat frac))
    (10 ^ frac.length)

/-- Source `evaluator.ts` `EvalContext` (the optional accelerated Monte-Carlo
callback is omitted: no embedded operation consults it). -/
structure EvalCtx where
  getValue : String → Dist
  maxComponents : Option Q

/-- Tolerance of the scalar test (`1e-9` in `Parser.isScalar`). -/
def scalarTol : Q := ⟨1, 1000000000⟩

def scalarErrMsg : String := "Expected scalar value (single atom with p=1)"

/-- Source `evaluator.ts` `Parser.isScalar`: a distribution acts as a scalar
exactly when it is a single atom whose mass is within `1e-9` of 1. -/
def isScalar (d : Dist) : Bool :=
  match d.components with
  | [.atom _ p] => decide ((p.sub 1).abs < scalarTol)
  | _ => false

/-- Source `evaluator.ts` `Parser.getScalar`: the position of the single atom of
a scalar distribution; anything else raises the scalar error.  (The
`length === 0` branch of the source is unreachable under `isScalar` and
is kept verbatim.) -/
def getScalar (d : Dist) : Except String Q :=
  if isScalar d then
    match d.components with
    | [] => .ok 0
    | c :: _ =>
        match c with
        | .atom x _ => .ok x
        | _ => .error scalarErrMsg
  else .error scalarErrMsg

/-- Source `evaluator.ts` `Parser.checkSafety`: compare the component count with
the effective limit (local override, else context limit, else 200) and
auto-reduce on exceed. -/
def checkSafety (localMax ctxMax : Option Q) (d : Dist) : Except String Dist :=
  let limit := localMax.getD (ctxMax.getD 200)
  if qOfNat d.components.length > limit then
    reduce d ⟨limit, none, none, none, none⟩
  else .ok d

/-- Source `evaluator.ts` GEOM_SUM loop (`maxLoops = 2000` is the source's own
fuel).  Per iteration: emit the running convolution scaled by the
current stop probability `(1−p)·p^k`, stop once the cumulative emitted
mass exceeds `0.9999`, otherwise convolve with the base distribution
(safety-checked) and continue. -/
def geomSumLoop (localMax ctxMax : Option Q) (baseDist : Dist) (p : Q) :
    Nat → Nat → Dist → Q → Q → List DistComponent →
    Except String (List DistComponent)
  | 0, _, _, _, _, result => .ok result
  | fuel + 1, k, currentConv, currentProb, cumulativeProb, result =>
      let result2 := result ++ currentConv.components.map (.scaleMass currentProb)
      let cum2 := cumulativeProb + currentProb
      if Q.norm 9999 10000 < cum2 then .ok result2
      else
        match checkSafety localMax ctxMax (currentConv.add baseDist) with
        | .error e => .error e
        | .ok conv2 =>
            geomSumLoop localMax ctxMax baseDist p fuel (k + 1) conv2
              ((Q.sub 1 p) * p.pow (k + 1)) cum2 result2

/-- Source `evaluator.ts` function dispatch, restricted to the functions the
claims exercise (CONST, UNIFORM, ADD, MIX, GEOM_SUM); every other name
falls through to the source's final "Unknown function" error, which for
the unembedded remainder of the table is a deliberate narrowing of the
model. -/
def dispatchFn (localMax ctxMax : Option Q) (name : String)
    (args : List Dist) : Except String Dist :=
  let fn := strUpper name
  if fn = "CONST" then
    match args with
    | [a] => (getScalar a).map (fun x => Dist.ofComponents [.atom x 1])
    | _ => .error "CONST requires 1 arg (x)"
  else if fn = "UNIFORM" then
    match args with
    | [a, b] => do
        let mn ← getScalar a
        let mx ← getScalar b
        if mx ≤ mn then .error "UNIFORM min must be < max"
        else .ok (Dist.ofComponents [.bin mn mx 1 ((mn + mx) / 2) "uniform"])
    | _ => .error "UNIFORM requires 2 args (min, max)"
  else if fn = "ADD" then
    match args with
    | [a, b] => checkSafety localMax ctxMax (a.add b)
    | _ => .error "ADD requires 2 args (A, B)"
  else if fn = "MIX" then
    match args with
    | [a0, a1, a2] => do
        let p ← getScalar a0
        checkSafety localMax ctxMax (a2.mix a1 p)
    | _ => .error "MIX requires 3 args (A, B, p)"
  else if fn = "GEOM_SUM" then
    match args with
    | [base, parg] => do
        let p ← getScalar parg
        if p < 0 ∨ 1 ≤ p then .error "p must be in [0, 1)"
        else if p = 0 then .ok (Dist.ofComponents [.atom 0 1])
        else do
          let comps ← geomSumLoop localMax ctxMax base p 2000 0
            (Dist.ofComponents [.atom 0 1]) (Q.sub 1 p) 0 []
          checkSafety localMax ctxMax (Dist.ofComponents comps)
    | _ => .error "GEOM_SUM requires 2 args (Dist, p)"
  else .error ("Unknown function: " ++ name)

/-- Source `evaluator.ts` `expandRange` cell-reference parser
(`^([A-Z]+)([0-9]+)$` over the upper-cased text). -/
def parseCellRef (cell : String) : Except String (String × Nat) :=
  let cs := (strUpper cell).toList
  let letters := cs.takeWhile (fun c => 'A' ≤ c ∧ c ≤ 'Z')
  let rest := cs.dropWhile (fun c => 'A' ≤ c ∧ c ≤ 'Z')
  let digits := rest.takeWhile Char.isDigit
  let rest2 := rest.dropWhile Char.isDigit
  if letters.isEmpty ∨ digits.isEmpty ∨ ¬rest2.isEmpty then
    .error ("Invalid cell ref in range: " ++ cell)
  else .ok (String.mk letters, digitsToNat digits)

/-- Source `evaluator.ts` `colToIndex` ("A" → 0, "B" → 1, "AA" → 26, …). -/
def colToIndex (col : String) : Nat :=
  (col.toList.foldl (fun acc c => acc * 26 + (c.toNat - 64)) 0) - 1

/-- Source `evaluator.ts` `indexToCol` digit loop (`n := ⌊n/26⌋ − 1` strictly
decreases, so the index itself bounds the iteration count). -/
def indexToColGo : Nat → Int → String → String
  | 0, _, acc => acc
  | fuel + 1, n, acc =>
      if n < 0 then acc
      else
        indexToColGo fuel (n / 26 - 1)
          (String.mk [Char.ofNat (65 + (n % 26).toNat)] ++ acc)

def indexToCol (idx : Nat) : String := indexToColGo (idx + 2) (Int.ofNat idx) ""

/-- Source `evaluator.ts` `expandRange`: row-major expansion between the
normalised corners, direction-insensitive. -/
def expandRange (startRef endRef : String) : Except String (List String) := do
  let s ← parseCellRef startRef
  let e ← parseCellRef endRef
  let c1 := colToIndex s.1
  let c2 := colToIndex e.1
  let minC := Nat.min c1 c2
  let maxC := Nat.max c1 c2
  let minR := Nat.min s.2 e.2
  let maxR := Nat.max s.2 e.2
  .ok ((List.range (maxR - minR + 1)).foldr
    (fun dr acc =>
      ((List.range (maxC - minC + 1)).map
        (fun dc => indexToCol (minC + dc) ++ toString (minR + dr))) ++ acc)
    [])

/-- Mutable parser state: the token cursor and the CONFIG-scoped local
component-limit override (`Parser.pos`, `Parser.localMaxComponents`).
The state survives an error exactly as the JavaScript object's fields
survive a thrown exception. -/
structure PState where
  pos : Nat
  localMax : Option Q
deriving DecidableEq, Repr

/-- Token stream and evaluation context of one `Parser` instance. -/
structure PEnv where
  tokens : List Token
  ctx : EvalCtx

def PEnv.peek (env : PEnv) (s : PState) : Option Token := env.tokens.get? s.pos

def PState.advance (s : PState) : PState := ⟨s.pos + 1, s.localMax⟩

def PState.withLocalMax (s : PState) (m : Option Q) : PState := ⟨s.pos, m⟩

/-- Source `Parser.expect`: consume one token and fail unless it has the wanted
type. -/
def pExpect (env : PEnv) (s : PState) (t : TokenType) :
    Except String Token × PState :=
  match env.peek s with
  | some tk =>
      if tk.type = t then (.ok tk, s.advance)
      else (.error ("Expected " ++ t.tn ++ ", got " ++ tk.type.tn), s.advance)
  | none => (.error ("Expected " ++ t.tn ++ ", got undefined"), s.advance)

/-- True when the next token exists and has the given type (the JS
`peek()?.type === t`). -/
def peekIs (env : PEnv) (s : PState) (t : TokenType) : Bool :=
  match env.peek s with
  | some tk => tk.type = t
  | none => false

/-- Closing step of a non-CONFIG function call: expect `)` then dispatch
on the (case-insensitive) function name. -/
def finishCall (env : PEnv) (s : PState) (name : String) (args : List Dist) :
    Except String Dist × PState :=
  match pExpect env s .RPAREN with
  | (.error e, s2) => (.error e, s2)
  | (.ok _, s2) => (dispatchFn s2.localMax env.ctx.maxComponents name args, s2)

mutual

/-- Source `Parser.parseExpression`: a term followed by `+`/`-` chains, with a
safety check after every addition or subtraction. -/
def parseExpression : Nat → PEnv → PState → Except String Dist × PState
  | 0, _, s => (.error "Eval fuel exhausted", s)
  | fuel + 1, env, s =>
      match parseTerm fuel env s with
      | (.error e, s2) => (.error e, s2)
      | (.ok left, s2) => exprLoop fuel env s2 left

/-- The `while` loop of `parseExpression`. -/
def exprLoop : Nat → PEnv → PState → Dist → Except String Dist × PState
  | 0, _, s, _ => (.error "Eval fuel exhausted", s)
  | fuel + 1, env, s, left =>
      if peekIs env s .PLUS then
        match parseTerm fuel env s.advance with
        | (.error e, s2) => (.error e, s2)
        | (.ok right, s2) =>
            match checkSafety s2.localMax env.ctx.maxComponents (left.add right) with
            | .error e => (.error e, s2)
            | .ok next => exprLoop fuel env s2 next
      else if peekIs env s .MINUS then
        match parseTerm fuel env s.advance with
        | (.error e, s2) => (.error e, s2)
        | (.ok right, s2) =>
            match checkSafety s2.localMax env.ctx.maxComponents (left.sub right) with
            | .error e => (.error e, s2)
            | .ok next => exprLoop fuel env s2 next
      else (.ok left, s)

/-- Source `Parser.parseTerm`: a factor followed by `*`/`/` chains. -/
def parseTerm : Nat → PEnv → PState → Except String Dist × PState
  | 0, _, s => (.error "Eval fuel exhausted", s)
  | fuel + 1, env, s =>
      match parseFactor fuel env s with
      | (.error e, s2) => (.error e, s2)
      | (.ok left, s2) => termLoop fuel env s2 left

/-- The `while` loop of `parseTerm`: scalar-only multiplication and
division, with a safety check after each step. -/
def termLoop : Nat → PEnv → PState → Dist → Except String Dist × PState
  | 0, _, s, _ => (.error "Eval fuel exhausted", s)
  | fuel + 1, env, s, left =>
      if peekIs env s .MUL then
        match parseFactor fuel env s.advance with
        | (.error e, s2) => (.error e, s2)
        | (.ok right, s2) =>
            let stepped : Except String Dist :=
              if isScalar right then (getScalar right).map (fun k => left.scale k)
              else if isScalar left then (getScalar left).map (fun k => right.scale k)
              else .error "Multiplication of two Distributions not supported (Scalar required)"
            match stepped with
            | .error e => (.error e, s2)
            | .ok mid =>
                match checkSafety s2.localMax env.ctx.maxComponents mid with
                | .error e => (.error e, s2)
                | .ok next => termLoop fuel env s2 next
      else if peekIs env s .DIV then
        match parseFactor fuel env s.advance with
        | (.error e, s2) => (.error e, s2)
        | (.ok right, s2) =>
            let stepped : Except String Dist :=
              if isScalar right then
                match getScalar right with
                | .error e => .error e
                | .ok k =>
                    if k = 0 then .error "Division by Zero"
                    else .ok (left.scale ((1 : Q) / k))
              else if isScalar left then
                (getScalar left).map (fun k => right.reciprocal.scale k)
              else .error "Division of two Distributions not supported"
            match stepped with
            | .error e => (.error e, s2)
            | .ok mid =>
                match checkSafety s2.localMax env.ctx.maxComponents mid with
                | .error e => (.error e, s2)
                | .ok next => termLoop fuel env s2 next
      else (.ok left, s)

/-- Source `Parser.parseFactor`: number, reference, function call, unary minus
or parenthesised expression. -/
def parseFactor : Nat → PEnv → PState → Except String Dist × PState
  | 0, _, s => (.error "Eval fuel exhausted", s)
  | fuel + 1, env, s =>
      match env.peek s with
      | none => (.error "Unexpected end of input", s)
      | some t =>
          if t.type = .NUMBER then
            (.ok (Dist.ofComponents [.atom (parseFloatQ t.value) 1]), s.advance)
          else if t.type = .ID then
            let s2 := s.advance
            if peekIs env s2 .LPAREN then parseFunctionCall fuel env s2 t.value
            else (.ok (env.ctx.getValue t.value), s2)
          else if t.type = .MINUS then
            match parseFactor fuel env s.advance with
            | (.error e, s2) => (.error e, s2)
            | (.ok f, s2) => (.ok (f.scale (-1)), s2)
          else if t.type = .LPAREN then
            match parseExpression fuel env s.advance with
            | (.error e, s2) => (.error e, s2)
            | (.ok expr, s2) =>
                match pExpect env s2 .RPAREN with
                | (.error e, s3) => (.error e, s3)
                | (.ok _, s3) => (.ok expr, s3)
          else (.error ("Unexpected token: " ++ t.type.tn), s)

/-- Source `Parser.parseFunctionCall`: CONFIG is special-cased (its second
argument is parsed under the overridden local component limit, restored
only on the success path — the source has no `finally`); every other
name parses an argument list and dispatches. -/
def parseFunctionCall : Nat → PEnv → PState → String → Except String Dist × PState
  | 0, _, s, _ => (.error "Eval fuel exhausted", s)
  | fuel + 1, env, s, name =>
      match pExpect env s .LPAREN with
      | (.error e, s1) => (.error e, s1)
      | (.ok _, s1) =>
          if peekIs env s1 .RPAREN then finishCall env s1 name []
          else if strUpper name = "CONFIG" then
            match parseExpression fuel env s1 with
            | (.error e, s2) => (.error e, s2)
            | (.ok limitDist, s2) =>
                match getScalar limitDist with
                | .error e => (.error e, s2)
                | .ok limit =>
                    match pExpect env s2 .COMMA with
                    | (.error e, s3) => (.error e, s3)
                    | (.ok _, s3) =>
                        let oldLimit := s3.localMax
                        match parseExpression fuel env (s3.withLocalMax (some limit)) with
                        | (.error e, s5) => (.error e, s5)
                        | (.ok result, s5) =>
                            match pExpect env (s5.withLocalMax oldLimit) .RPAREN with
                            | (.error e, s7) => (.error e, s7)
                            | (.ok _, s7) => (.ok result, s7)
          else
            match tryParseArg fuel env s1 [] with
            | (.error e, s2) => (.error e, s2)
            | (.ok args, s2) => commaLoop fuel env s2 name args

/-- The `while (peek COMMA)` loop of the argument parser. -/
def commaLoop : Nat → PEnv → PState → String → List Dist → Except String Dist × PState
  | 0, _, s, _, _ => (.error "Eval fuel exhausted", s)
  | fuel + 1, env, s, name, args =>
      if peekIs env s .COMMA then
        match tryParseArg fuel env s.advance args with
        | (.error e, s2) => (.error e, s2)
        | (.ok args2, s2) => commaLoop fuel env s2 name args2
      else finishCall env s name args

/-- Source `tryParseArg`: an `ID : ID` range literal expands to the referenced
cell values; anything else is a normal expression argument. -/
def tryParseArg : Nat → PEnv → PState → List Dist → Except String (List Dist) × PState
  | 0, _, s, _ => (.error "Eval fuel exhausted", s)
  | fuel + 1, env, s, args =>
      match env.peek s, env.tokens.get? (s.pos + 1) with
      | some t0, some t1 =>
          if t0.type = .ID ∧ t1.type = .COLON then
            let s2 := s.advance.advance
            match pExpect env s2 .ID with
            | (.error e, s3) => (.error e, s3)
            | (.ok endTok, s3) =>
                match expandRange t0.value endTok.value with
                | .error e => (.error e, s3)
                | .ok cells =>
                    (.ok (args ++ cells.map env.ctx.getValue), s3)
          else
            match parseExpression fuel env s with
            | (.error e, s2) => (.error e, s2)
            | (.ok d, s2) => (.ok (args ++ [d]), s2)
      | _, _ =>
          match parseExpression fuel env s with
          | (.error e, s2) => (.error e, s2)
          | (.ok d, s2) => (.ok (args ++ [d]), s2)

end

/-- Source `evaluator.ts` `evaluate`: tokenize, parse one expression (trailing
tokens are ignored), wrap any raised error as `Eval Error: …`; an empty
input is the empty distribution. -/
def evaluate (expr : String) (ctx : EvalCtx) : Except String Dist :=
  if expr = "" then .ok ⟨[]⟩
  else
    match tokenize expr with
    | .error e => .error ("Eval Error: " ++ e)
    | .ok tokens =>
        match parseExpression (10 * (tokens.length + 1)) ⟨tokens, ctx⟩ ⟨0, none⟩ with
        | (.ok d, _) => .ok d
        | (.error e, _) => .error ("Eval Error: " ++ e)

/-- Source `src/engine/cell.ts` `CellStatus`. -/
inductive CellStatus where
  | pending | ok | error | circular | evaluating
deriving DecidableEq, Repr

/-- Source `src/engine/cell.ts` `Cell`. -/
structure Cell where
  id : String
  rawInput : String
  value : Dist
  status : CellStatus
  errMsg : Option String
  dependencies : List String
  dependents : List String
deriving DecidableEq, Repr

def Cell.new (id : String) : Cell := ⟨id, "", ⟨[]⟩, .ok, none, [], []⟩

def Cell.withRawInput (c : Cell) (v : String) : Cell :=
  ⟨c.id, v, c.value, c.status, c.errMsg, c.dependencies, c.dependents⟩

def Cell.withValue (c : Cell) (v : Dist) : Cell :=
  ⟨c.id, c.rawInput, v, c.status, c.errMsg, c.dependencies, c.dependents⟩

def Cell.withStatus (c : Cell) (v : CellStatus) : Cell :=
  ⟨c.id, c.rawInput, c.value, v, c.errMsg, c.dependencies, c.dependents⟩

def Cell.withErr (c : Cell) (v : Option String) : Cell :=
  ⟨c.id, c.rawInput, c.value, c.status, v, c.dependencies, c.dependents⟩

def Cell.withDependencies (c : Cell) (v : List String) : Cell :=
  ⟨c.id, c.rawInput, c.value, c.status, c.errMsg, v, c.dependents⟩

def Cell.withDependents (c : Cell) (v : List String) : Cell :=
  ⟨c.id, c.rawInput, c.value, c.status, c.errMsg, c.dependencies, v⟩

/-- Source `src/engine/graph.ts` `Graph`: the identifier table (a JS `Map`,
insertion-ordered), the global component limit and the dirty-tracking
set.  Listeners carry no graph state and are omitted. -/
structure Graph where
  cells : List (String × Cell)
  maxComponents : Q
  dirtyTrack : List String
deriving DecidableEq, Repr

def Graph.empty : Graph := ⟨[], 200, []⟩

def Graph.findCell (g : Graph) (id : String) : Option Cell :=
  (g.cells.find? (fun e => e.1 = id)).map (fun e => e.2)

/-- Pure read of a cell; a missing identifier reads as a fresh empty
cell, matching what `getCell` would create. -/
def Graph.getCellD (g : Graph) (id : String) : Cell :=
  (g.findCell id).getD (Cell.new id)

/-- The creation half of `Graph.getCell`: insert a fresh cell at the end
of the table when the identifier is unknown. -/
def Graph.ensureCell (g : Graph) (id : String) : Graph :=
  if (g.findCell id).isSome then g
  else ⟨g.cells ++ [(id, Cell.new id)], g.maxComponents, g.dirtyTrack⟩

def Graph.modifyCell (g : Graph) (id : String) (f : Cell → Cell) : Graph :=
  ⟨g.cells.map (fun e => if e.1 = id then (e.1, f e.2) else e),
   g.maxComponents, g.dirtyTrack⟩

/-- Insertion-ordered set add (JS `Set.prototype.add`). -/
def addToSet (l : List String) (x : String) : List String :=
  if l.contains x then l else l ++ [x]

def Graph.markDirty (g : Graph) (id : String) : Graph :=
  ⟨g.cells, g.maxComponents, addToSet g.dirtyTrack id⟩

def isWordChar (c : Char) : Bool := c.isAlphanum || c = '_'

def isUpperAZ (c : Char) : Bool := 'A' ≤ c && c ≤ 'Z'

/-- Source `graph.ts` `detectDependencies` scanner for the pattern
`\b([A-Z]+[0-9]+)\b`: at a position not preceded by a word character,
a maximal upper-case run followed by a maximal digit run matches when
the next character is not a word character (shorter backtracked runs
always fail the trailing boundary, so maximal runs are exact). -/
def scanDepsGo : Nat → Bool → List Char → List String
  | 0, _, _ => []
  | _ + 1, _, [] => []
  | fuel + 1, prevWord, c :: rest =>
      if !prevWord && isUpperAZ c then
        let letters := c :: rest.takeWhile isUpperAZ
        let afterLetters := rest.dropWhile isUpperAZ
        let digits := afterLetters.takeWhile Char.isDigit
        let afterDigits := afterLetters.dropWhile Char.isDigit
        let boundaryOk := match afterDigits with
          | [] => true
          | d :: _ => !isWordChar d
        if !digits.isEmpty && boundaryOk then
          String.mk (letters ++ digits) :: scanDepsGo fuel true afterDigits
        else scanDepsGo fuel (isWordChar c) rest
      else scanDepsGo fuel (isWordChar c) rest

def detectDependencies (input : String) : List String :=
  (scanDepsGo (input.length + 1) false input.toList).foldl addToSet []

/-- Source `graph.ts` `updateDependencies`: detach from dropped references,
attach to added ones (creating their cells), replace the dependency
set. -/
def Graph.updateDeps (g : Graph) (id : String) (newDeps : List String) : Graph :=
  let oldDeps := (g.getCellD id).dependencies
  let g1 := oldDeps.foldl
    (fun acc dep =>
      if newDeps.contains dep then acc
      else
        (acc.ensureCell dep).modifyCell dep
          (fun c => c.withDependents (c.dependents.filter (fun x => x ≠ id))))
    g
  let g2 := newDeps.foldl
    (fun acc dep =>
      if oldDeps.contains dep then acc
      else
        (acc.ensureCell dep).modifyCell dep
          (fun c => c.withDependents (addToSet c.dependents id)))
    g1
  g2.modifyCell id (fun c => c.withDependencies newDeps)

/-- Whitespace trim over the character list (JS `String.prototype.trim`
restricted to the ASCII whitespace the cells contain). -/
def trimChars (cs : List Char) : List Char :=
  ((cs.dropWhile isWS).reverse.dropWhile isWS).reverse

/-- JavaScript `Number()` on a trimmed non-empty string, restricted to
decimal literals (sign, digits, fraction, exponent); the `Infinity`/hex
forms JS also accepts are outside `Q` and are not exercised by any
theorem. `none` is `NaN`. -/
def jsNumberQ (cs : List Char) : Option Q :=
  let sign : Bool × List Char :=
    match cs with
    | '-' :: r => (true, r)
    | '+' :: r => (false, r)
    | _ => (false, cs)
  let ip := sign.2.takeWhile Char.isDigit
  let r1 := sign.2.dropWhile Char.isDigit
  let fracRest : List Char × List Char :=
    match r1 with
    | '.' :: rr => (rr.takeWhile Char.isDigit, rr.dropWhile Char.isDigit)
    | _ => ([], r1)
  let fp := fracRest.1
  let r2 := fracRest.2
  if ip.isEmpty && fp.isEmpty then none
  else
    let base : Q := Q.norm
      (Int.ofNat (digitsToNat ip * 10 ^ fp.length + digitsToNat fp))
      (10 ^ fp.length)
    let withExp : Option Q :=
      match r2 with
      | [] => some base
      | e :: rr =>
          if e = 'e' || e = 'E' then
            let esign : Bool × List Char :=
              match rr with
              | '-' :: r3 => (true, r3)
              | '+' :: r3 => (false, r3)
              | _ => (false, rr)
            let eds := esign.2.takeWhile Char.isDigit
            let tail := esign.2.dropWhile Char.isDigit
            if eds.isEmpty || !tail.isEmpty then none
            else if esign.1 then
              some (base.mul (Q.norm 1 (10 ^ digitsToNat eds)))
            else some (base.mul ⟨Int.ofNat (10 ^ digitsToNat eds), 1⟩)
          else none
    match withExp with
    | none => none
    | some q => some (if sign.1 then q.neg else q)

/-- Source `graph.ts` `evaluateCell`: circular cells return untouched; a
leading `=` evaluates the remainder as a formula (errors set status
`error`); anything else parses as a number, silently yielding the empty
distribution when unparseable; both non-formula branches end `ok`. -/
def Graph.evaluateCellG (g : Graph) (id : String) : Graph :=
  match g.findCell id with
  | none => g
  | some c =>
      if c.status = .circular then g
      else
        let cs := c.rawInput.toList
        if cs.head? = some '=' then
          let ctx : EvalCtx :=
            ⟨fun rid => (g.getCellD rid).value, some g.maxComponents⟩
          match evaluate (String.mk cs.tail) ctx with
          | .ok v =>
              (g.modifyCell id
                (fun cc => (cc.withValue v).withStatus .ok)).markDirty id
          | .error e =>
              (g.modifyCell id
                (fun cc => (cc.withStatus .error).withErr (some e))).markDirty id
        else
          let trimmed := trimChars cs
          let numOpt : Option Q := if trimmed.isEmpty then none else jsNumberQ trimmed
          let v : Dist :=
            match numOpt with
            | some q => Dist.ofComponents [.atom q 1]
            | none => ⟨[]⟩
          (g.modifyCell id
            (fun cc => (cc.withValue v).withStatus .ok)).markDirty id

/-- Fuel ample for the dependents-closure BFS: one step per queue entry,
of which there are at most one per cell plus one per edge. -/
def Graph.bfsFuel (g : Graph) : Nat :=
  1 + g.cells.foldl (fun acc e => acc + 1 + e.2.dependents.length) 0

/-- Source `graph.ts` `recalculate` step 1 (`buildOrder`): BFS over the
dependents relation, marking every non-circular reached cell
`evaluating` and dirty; returns the closure in visit order. -/
def bfsGo : Nat → Graph → List String → List String → List String × Graph
  | 0, g, _, dirty => (dirty, g)
  | fuel + 1, g, queue, dirty =>
      match queue with
      | [] => (dirty, g)
      | curr :: rest =>
          if dirty.contains curr then bfsGo fuel g rest dirty
          else
            let dirty2 := dirty ++ [curr]
            let g1 := g.ensureCell curr
            let c := g1.getCellD curr
            let g2 :=
              if c.status ≠ .circular then
                (g1.modifyCell curr (fun cc => cc.withStatus .evaluating)).markDirty curr
              else g1
            bfsGo fuel g2 (rest ++ c.dependents) dirty2

def lookupDeg (m : List (String × Int)) (id : String) : Int :=
  match m.find? (fun e => e.1 = id) with
  | some e => e.2
  | none => 0

def setDeg (m : List (String × Int)) (id : String) (v : Int) : List (String × Int) :=
  m.map (fun e => if e.1 = id then (e.1, v) else e)

/-- Source `recalculate` step 2a: in-degree of every closure cell, counting the
dependent edges that stay inside the closure. -/
def computeInDeg (g : Graph) (dirty : List String) : List (String × Int) :=
  dirty.foldl
    (fun m id =>
      (g.getCellD id).dependents.foldl
        (fun m2 dep =>
          if dirty.contains dep then setDeg m2 dep (lookupDeg m2 dep + 1) else m2)
        m)
    (dirty.map (fun id => (id, (0 : Int))))

/-- Source `recalculate` step 3: Kahn execution — evaluate a zero-in-degree
cell, decrement its in-closure dependents, enqueue fresh zeros.  The
cooperative yield of the source is a no-op here. -/
def execGo : Nat → Graph → List String → List (String × Int) → List String → Nat →
    Graph × Nat × List (String × Int)
  | 0, g, _, m, _, p => (g, p, m)
  | fuel + 1, g, queue, m, dirty, p =>
      match queue with
      | [] => (g, p, m)
      | currId :: rest =>
          let g1 := g.ensureCell currId
          let g2 := g1.evaluateCellG currId
          let deps := (g2.getCellD currId).dependents
          let step := deps.foldl
            (fun (acc : List (String × Int) × List String) depId =>
              if dirty.contains depId then
                let d := lookupDeg acc.1 depId - 1
                let m2 := setDeg acc.1 depId d
                if d = 0 then (m2, acc.2 ++ [depId]) else (m2, acc.2)
              else acc)
            (m, [])
          execGo fuel g2 (rest ++ step.2) step.1 dirty (p + 1)

/-- Source `recalculate` step 7: every closure cell left with positive
in-degree participated in a cycle; mark it `circular` and dirty. -/
def markCircular (g : Graph) (m : List (String × Int)) : Graph :=
  m.foldl
    (fun gg e =>
      if 0 < e.2 then
        (gg.modifyCell e.1 (fun cc => cc.withStatus .circular)).markDirty e.1
      else gg)
    g

/-- Source `graph.ts` `recalculate` (the asynchronous yields of the source are
scheduling only and do not affect the resulting state). -/
def Graph.recalculate (g : Graph) (startId : String) : Graph :=
  let bfs := bfsGo g.bfsFuel g [startId] []
  let dirty := bfs.1
  let g1 := bfs.2
  let m := computeInDeg g1 dirty
  let execQ := (m.filter (fun e => e.2 = 0)).map (fun e => e.1)
  let res := execGo (dirty.length + 1) g1 execQ m dirty 0
  if res.2.1 < dirty.length then markCircular res.1 res.2.2 else res.1

/-- Source `graph.ts` `setCellInput`: no-op on unchanged input, else update the
raw input, refresh edges and recalculate from the cell. -/
def Graph.setCellInput (g : Graph) (id input : String) : Graph :=
  let g0 := g.ensureCell id
  if (g0.getCellD id).rawInput = input then g0
  else
    let g1 := (g0.modifyCell id (fun c => c.withRawInput input)).markDirty id
    let g2 := g1.updateDeps id (detectDependencies input)
    g2.recalculate id

/-- Run a sequence of `set_input` steps. -/
def Graph.applyInputs (g : Graph) : List (String × String) → Graph
  | [] => g
  | step :: rest => (g.setCellInput step.1 step.2).applyInputs rest

/-- The evaluation context of the repository's evaluator tests: every
reference resolves to the empty distribution, no component limit. -/
def emptyCtx : EvalCtx := ⟨fun _ => ⟨[]⟩, none⟩

/-- A distribution that passes the scalar test: a single atom of mass 1. -/
def scalarDist (p : Q) : Dist := ⟨[.atom p 1]⟩

def meanOfRun (r : Except String Dist) : Q :=
  match r with
  | .ok d => d.mean
  | .error _ => 0

/-- The formula exactly as the claim (and spec scenario) quotes it. -/
def c7ClaimMean : Q :=
  meanOfRun (evaluate "ADD(CONST(1), GEOM_SUM(CONST(1500), 0.81))" emptyCtx)

def c7ClaimIsOk : Bool :=
  (evaluate "ADD(CONST(1), GEOM_SUM(CONST(1500), 0.81))" emptyCtx).isOk

/-- The formula as the repository's pachinko integration test writes it
(first summand `CONST(1500)`). -/
def c7TestMean : Q :=
  meanOfRun (evaluate "ADD(CONST(1500), GEOM_SUM(CONST(1500), 0.81))" emptyCtx)

def c7TestIsOk : Bool :=
  (evaluate "ADD(CONST(1500), GEOM_SUM(CONST(1500), 0.81))" emptyCtx).isOk

/-- Three unit atoms at −1, 1 and 5: exceeds a component limit of 2, and
the atoms at −1 and 1 merge across 0 exactly when no boundary at 0 is in
force. -/
def c2Input : Dist :=
  Dist.ofComponents [.atom (Q.ofInt (-1)) ⟨1, 3⟩, .atom 1 ⟨1, 3⟩, .atom ⟨5, 1⟩ ⟨1, 3⟩]

/-- A wide bin overlapped by an atom: after boundary splitting at 5 the
list is no longer ordered by start, which defeats the reducer's
junction-only boundary check. -/
def c3Input : Dist :=
  Dist.ofComponents [.bin 0 ⟨10, 1⟩ ⟨1, 2⟩ ⟨5, 1⟩ "uniform", .atom ⟨2, 1⟩ ⟨1, 2⟩]

/-- Two atoms at the same position; their merge has zero width. -/
def c8Input : Dist :=
  Dist.ofComponents [.atom ⟨5, 1⟩ ⟨1, 2⟩, .atom ⟨5, 1⟩ ⟨1, 2⟩]

/-- The spec's cycle scenario: `A1 = "=A2"` then `A2 = "=A1"`. -/
def cycleDemo : Graph :=
  (Graph.empty.setCellInput "A1" "=A2").setCellInput "A2" "=A1"

def tokensOf (s : String) : List Token :=
  match tokenize s with
  | .ok ts => ts
  | .error _ => []

/-- Parser environment for a CONFIG call whose body raises an error. -/
def c6ErrEnv : PEnv := ⟨tokensOf "CONFIG(5, UNIFORM(3, 2))", emptyCtx⟩

/-- Parser environment for a CONFIG call whose body succeeds. -/
def c6OkEnv : PEnv := ⟨tokensOf "CONFIG(5, CONST(1))", emptyCtx⟩

/-- A one-cell graph whose cell holds the non-numeric text `abc`. -/
def c4Graph : Graph :=
  ⟨[("A1", ⟨"A1", "abc", ⟨[]⟩, .ok, none, [], []⟩)], 200, []⟩

theorem insertSorted_perm (le : α → α → Bool) (x : α) (l : List α) :
    (insertSorted le x l).Perm (x :: l) := by
  induction l with
  | nil => exact List.Perm.refl _
  | cons y ys ih =>
      unfold insertSorted
      by_cases h : le x y
      · rw [if_pos h]
      · rw [if_neg h]
        exact (List.Perm.cons y ih).trans (List.Perm.swap x y ys)

theorem sortByKey_perm (le : α → α → Bool) (l : List α) :
    (sortByKey le l).Perm l := by
  induction l with
  | nil => exact List.Perm.refl _
  | cons x xs ih =>
      exact (insertSorted_perm le x (sortByKey le xs)).trans (List.Perm.cons x ih)

theorem sortByKey_length (le : α → α → Bool) (l : List α) :
    (sortByKey le l).length = l.length :=
  (sortByKey_perm le l).length_eq

theorem findCell_modifyCell (g : Graph) (id id2 : String) (f : Cell → Cell) :
    (g.modifyCell id2 f).findCell id =
      if id = id2 then (g.findCell id).map f else g.findCell id := by
  unfold Graph.modifyCell Graph.findCell
  simp only
  rw [List.find?_map]
  have hcomp :
      ((fun e : String × Cell => decide (e.1 = id)) ∘
        (fun e : String × Cell => if e.1 = id2 then (e.1, f e.2) else e)) =
      (fun e : String × Cell => decide (e.1 = id)) := by
    funext e
    by_cases h : e.1 = id2 <;> simp [h]
  rw [hcomp]
  cases hfind : g.cells.find? (fun e => decide (e.1 = id)) with
  | none => simp
  | some e =>
      have he' := @List.find?_some _ (fun e : String × Cell => decide (e.1 = id))
        e g.cells hfind
      have he : e.1 = id := of_decide_eq_true he'
      by_cases hid : id = id2
      · rw [if_pos hid]
        simp [he, hid]
      · rw [if_neg hid]
        have : ¬ e.1 = id2 := fun hh => hid (he ▸ hh)
        simp [this]

theorem findCell_markDirty (g : Graph) (x id : String) :
    (g.markDirty x).findCell id = g.findCell id := rfl

theorem findCell_ensure_of_some (g : Graph) (id2 id : String) (c : Cell)
    (h : g.findCell id = some c) : (g.ensureCell id2).findCell id = some c := by
  unfold Graph.ensureCell
  by_cases hp : (g.findCell id2).isSome
  · rw [if_pos hp]; exact h
  · rw [if_neg hp]
    unfold Graph.findCell at h ⊢
    simp only
    obtain ⟨e, he, hec⟩ := Option.map_eq_some'.mp h
    rw [List.find?_append, he]
    simp [hec]

/-- C1 (counterexample): evaluating `MIX(0.1, CONST(0), CONST(100))`
puts mass 0.1 — not the claimed `1 − p = 0.9` — on the atom contributed
by the second argument `CONST(0)`: the claim's rule "masses of A are
rescaled by (1 − p)" fails on this input. -/
theorem mix_example_puts_p_on_A :
    evaluate "MIX(0.1, CONST(0), CONST(100))" emptyCtx =
      .ok ⟨[.atom 0 ⟨1, 10⟩, .atom ⟨100, 1⟩ ⟨9, 10⟩]⟩ ∧
    (⟨1, 10⟩ : Q) ≠ ⟨9, 10⟩ := by decide

/-- C1 (amended): `MIX(p, A, B)` evaluates to `B.mix(A, p)`: the masses
of `A` are rescaled by `p` and the masses of `B` by `1 − p` (the claimed
formula with the two scale factors swapped), whenever the combined
component count stays within the effective limit so that no safety
reduction interferes. -/
theorem mix_semantics (lm cm : Option Q) (p : Q) (A B : Dist)
    (h : ¬(qOfNat (B.components.length + A.components.length) >
            lm.getD (cm.getD 200))) :
    dispatchFn lm cm "MIX" [scalarDist p, A, B] = .ok (B.mix A p) ∧
    (B.mix A p).components.Perm
      (B.components.map (DistComponent.scaleMass (Q.sub 1 p)) ++
       A.components.map (DistComponent.scaleMass p)) := by
  constructor
  · have hstep : dispatchFn lm cm "MIX" [scalarDist p, A, B] =
        checkSafety lm cm (B.mix A p) := rfl
    rw [hstep]
    unfold checkSafety
    have hlen : (B.mix A p).components.length =
        B.components.length + A.components.length := by
      unfold Dist.mix Dist.ofComponents
      rw [sortByKey_length]
      simp
    rw [if_neg]
    rw [hlen]
    exact h
  · exact sortByKey_perm _ _

/-- C1 (witness for the amended theorem), instantiated at the concrete
inputs of the spec scenario. -/
theorem mix_semantics_witness :
    ¬(qOfNat ((⟨[.atom ⟨100, 1⟩ 1]⟩ : Dist).components.length +
        (⟨[.atom 0 1]⟩ : Dist).components.length) >
        (none : Option Q).getD ((none : Option Q).getD 200)) ∧
    (dispatchFn none none "MIX"
        [scalarDist ⟨1, 10⟩, ⟨[.atom 0 1]⟩, ⟨[.atom ⟨100, 1⟩ 1]⟩] =
      .ok ((⟨[.atom ⟨100, 1⟩ 1]⟩ : Dist).mix ⟨[.atom 0 1]⟩ ⟨1, 10⟩) ∧
    ((⟨[.atom ⟨100, 1⟩ 1]⟩ : Dist).mix ⟨[.atom 0 1]⟩ ⟨1, 10⟩).components.Perm
      ((⟨[.atom ⟨100, 1⟩ 1]⟩ : Dist).components.map
          (DistComponent.scaleMass (Q.sub 1 ⟨1, 10⟩)) ++
       (⟨[.atom 0 1]⟩ : Dist).components.map
          (DistComponent.scaleMass ⟨1, 10⟩))) :=
  ⟨by decide,
   mix_semantics none none ⟨1, 10⟩ ⟨[.atom 0 1]⟩ ⟨[.atom ⟨100, 1⟩ 1]⟩ (by decide)⟩

/-- C2 (counterexample): with an effective limit of 2 exceeded by three
atoms, the safety check's actual reduction differs from a reduction with
boundary list `{0}`: the claim's "boundary list {0}" is false (the atoms
at −1 and 1 merge across 0). -/
theorem checkSafety_not_boundary_zero :
    qOfNat c2Input.components.length >
      ((none : Option Q).getD ((some (2 : Q)).getD 200)) ∧
    checkSafety none (some 2) c2Input ≠ reduceCore c2Input 2 0 0 none [0] := by
  decide

/-- C2 (amended): whenever the post-operation safety check finds the
component count above the effective limit (local override, else context
limit, else 200), it invokes the reducer with `targetN` equal to that
limit and every optional parameter defaulted: impact centre 0, width
weight 0, no valley threshold, and an **empty** boundary list. -/
theorem checkSafety_reduce_params (lm cm : Option Q) (d : Dist)
    (h : qOfNat d.components.length > lm.getD (cm.getD 200)) :
    checkSafety lm cm d = reduceCore d (lm.getD (cm.getD 200)) 0 0 none [] := by
  unfold checkSafety
  rw [if_pos h]
  rfl

/-- C2 (witness for the amended theorem). -/
theorem checkSafety_reduce_params_witness :
    qOfNat c2Input.components.length > ((none : Option Q).getD ((some (2 : Q)).getD 200)) ∧
    checkSafety none (some 2) c2Input =
      reduceCore c2Input ((none : Option Q).getD ((some (2 : Q)).getD 200)) 0 0 none [] :=
  ⟨by decide, checkSafety_reduce_params none (some 2) c2Input (by decide)⟩

/-- C3: the reducer violates boundary preservation: reducing a wide bin
overlapped by an atom with `targetN = 2` and boundary list `{5}` outputs
the bin `[2, 10]`, which strictly contains the boundary 5 (the
junction-only check misses pairs left out of order by boundary
splitting). -/
theorem reduce_boundary_violated :
    reduce c3Input ⟨2, none, none, none, some [⟨5, 1⟩]⟩ =
      .ok ⟨[.bin 0 ⟨5, 1⟩ ⟨1, 4⟩ ⟨5, 2⟩ "uniform",
            .bin ⟨2, 1⟩ ⟨10, 1⟩ ⟨3, 4⟩ ⟨23, 6⟩ "uniform"]⟩ ∧
    ((⟨2, 1⟩ : Q) < ⟨5, 1⟩ ∧ (⟨5, 1⟩ : Q) < ⟨10, 1⟩) := by decide

/-- C5: after `set_input("A1", "=A2")` and `set_input("A2", "=A1")` both
cells reach status `circular`. -/
theorem cycle_detection :
    (cycleDemo.getCellD "A1").status = CellStatus.circular ∧
    (cycleDemo.getCellD "A2").status = CellStatus.circular := by decide

/-- C7 (counterexample): the mean of the claim's formula
`ADD(CONST(1), GEOM_SUM(CONST(1500), 0.81))` evaluates below 7800, so it
does not lie in `[7800, 8000]`. -/
theorem geom_sum_claim_formula_mean_low :
    c7ClaimIsOk = true ∧ c7ClaimMean < ⟨7800, 1⟩ := by decide

/-- C7 (amended): with the first summand `CONST(1500)` — as in the
repository's pachinko integration test — the mean lies in
`[7800, 8000]`. -/
theorem geom_sum_test_formula_mean_in_range :
    c7TestIsOk = true ∧ ⟨7800, 1⟩ ≤ c7TestMean ∧ c7TestMean ≤ ⟨8000, 1⟩ := by
  decide

/-- C8: merging the two equal-position atoms of `c8Input` (triggered by
`reduce` with `targetN = 1`) produces the bin `[5, 5]` of zero width:
`a < b` fails on it, contradicting the documented bin invariant. -/
theorem reduce_zero_width_bin :
    reduce c8Input ⟨1, none, none, none, none⟩ =
      .ok ⟨[.bin ⟨5, 1⟩ ⟨5, 1⟩ 1 ⟨5, 1⟩ "uniform"]⟩ ∧
    ¬((⟨5, 1⟩ : Q) < ⟨5, 1⟩) := by decide

/-- C10: `getScalar` accepts exactly the single-atom distributions whose
mass is within `1e-9` of 1, returning the atom's position; every other
distribution raises "Expected scalar value (single atom with p=1)". -/
theorem getScalar_characterisation (d : Dist) :
    getScalar d = (match d.components with
      | [DistComponent.atom x p] =>
          if (p.sub 1).abs < scalarTol then Except.ok x
          else Except.error scalarErrMsg
      | _ => Except.error scalarErrMsg) := by
  obtain ⟨comps⟩ := d
  match comps with
  | [] => rfl
  | [DistComponent.atom x p] =>
      by_cases hp : (p.sub 1).abs < scalarTol <;>
        simp [getScalar, isScalar, hp]
  | [DistComponent.bin a b pp r sh] => rfl
  | [DistComponent.tail sd x0 m fam ps cp] => rfl
  | c1 :: c2 :: rest => cases c1 <;> rfl

/-- C4 (counterexample): committing the non-numeric, non-formula input
`abc` leaves the cell with status `ok` and no recorded error message —
not the claimed status `error`. -/
theorem text_input_stays_ok :
    ((Graph.empty.setCellInput "A1" "abc").getCellD "A1").status = CellStatus.ok ∧
    ((Graph.empty.setCellInput "A1" "abc").getCellD "A1").errMsg = none ∧
    CellStatus.ok ≠ CellStatus.error := by decide

/-- C4 (amended): evaluating any non-circular cell whose raw input does
not start with `=` always ends with status `ok` and an untouched error
field; when the trimmed input is empty or unparseable the published
value is the empty distribution (no error is ever recorded on this
path). -/
theorem evaluateCell_nonformula_ok (g : Graph) (id : String) (c : Cell)
    (h1 : g.findCell id = some c) (h2 : c.status ≠ .circular)
    (h3 : c.rawInput.toList.head? ≠ some '=') :
    ((g.evaluateCellG id).getCellD id).status = .ok ∧
    ((g.evaluateCellG id).getCellD id).errMsg = c.errMsg ∧
    (jsNumberQ (trimChars c.rawInput.toList) = none →
      ((g.evaluateCellG id).getCellD id).value = ⟨[]⟩) := by
  unfold Graph.evaluateCellG
  rw [h1]
  dsimp only
  rw [if_neg h2, if_neg h3]
  refine ⟨?_, ?_, ?_⟩
  · unfold Graph.getCellD
    rw [findCell_markDirty, findCell_modifyCell, if_pos rfl, h1]
    rfl
  · unfold Graph.getCellD
    rw [findCell_markDirty, findCell_modifyCell, if_pos rfl, h1]
    rfl
  · intro hn
    simp only [String.toList] at hn
    unfold Graph.getCellD
    rw [findCell_markDirty, findCell_modifyCell, if_pos rfl, h1]
    by_cases he : trimChars c.rawInput.data = [] <;>
      simp [he, hn, Cell.withValue, Cell.withStatus]

theorem pExpect_snd_localMax (env : PEnv) (s : PState) (t : TokenType) :
    (pExpect env s t).2.localMax = s.localMax := by
  unfold pExpect
  rcases env.peek s with _ | tk
  · rfl
  · by_cases h : tk.type = t <;> simp [h] <;> rfl

theorem pExpect_state_localMax (env : PEnv) (s : PState) (t : TokenType)
    (r : Except String Token) (s2 : PState) (h : pExpect env s t = (r, s2)) :
    s2.localMax = s.localMax := by
  have hx := pExpect_snd_localMax env s t
  rw [h] at hx
  exact hx

theorem finishCall_localMax (env : PEnv) (s : PState) (name : String)
    (args : List Dist) (d : Dist) (s2 : PState)
    (h : finishCall env s name args = (.ok d, s2)) : s2.localMax = s.localMax := by
  unfold finishCall at h
  rcases hpe : pExpect env s .RPAREN with ⟨r, sp⟩
  rw [hpe] at h
  cases r with
  | error e => simp at h
  | ok tk =>
      have hs : sp = s2 := congrArg Prod.snd h
      rw [← hs]
      exact pExpect_state_localMax env s .RPAREN (.ok tk) sp hpe

/-- Success of any parser entry point leaves the CONFIG-scoped local
component-limit override exactly as it was: the only writer is the
CONFIG branch, which restores it before returning successfully. -/
theorem parse_localMax_all : ∀ fuel : Nat,
    (∀ env s d s2, parseExpression fuel env s = (.ok d, s2) →
      s2.localMax = s.localMax) ∧
    (∀ env s left d s2, exprLoop fuel env s left = (.ok d, s2) →
      s2.localMax = s.localMax) ∧
    (∀ env s d s2, parseTerm fuel env s = (.ok d, s2) →
      s2.localMax = s.localMax) ∧
    (∀ env s left d s2, termLoop fuel env s left = (.ok d, s2) →
      s2.localMax = s.localMax) ∧
    (∀ env s d s2, parseFactor fuel env s = (.ok d, s2) →
      s2.localMax = s.localMax) ∧
    (∀ env s name d s2, parseFunctionCall fuel env s name = (.ok d, s2) →
      s2.localMax = s.localMax) ∧
    (∀ env s name args d s2, commaLoop fuel env s name args = (.ok d, s2) →
      s2.localMax = s.localMax) ∧
    (∀ env s args d s2, tryParseArg fuel env s args = (.ok d, s2) →
      s2.localMax = s.localMax) := by
  intro fuel
  induction fuel with
  | zero =>
      refine ⟨fun env s d s2 h => ?_, fun env s left d s2 h => ?_,
        fun env s d s2 h => ?_, fun env s left d s2 h => ?_,
        fun env s d s2 h => ?_, fun env s name d s2 h => ?_,
        fun env s name args d s2 h => ?_, fun env s args d s2 h => ?_⟩ <;>
      simp [parseExpression, exprLoop, parseTerm, termLoop,
        parseFactor, parseFunctionCall, commaLoop, tryParseArg] at h
  | succ fuel ih =>
      obtain ⟨ihE, ihEL, ihT, ihTL, ihF, ihFC, ihCL, ihTA⟩ := ih
      have hAdv : ∀ s : PState, s.advance.localMax = s.localMax := fun _ => rfl
      refine ⟨?_, ?_, ?_, ?_, ?_, ?_, ?_, ?_⟩
      · -- parseExpression
        intro env s d s2 h
        unfold parseExpression at h
        rcases hpt : parseTerm fuel env s with ⟨r, sm⟩
        rw [hpt] at h
        cases r with
        | error e => simp at h
        | ok left =>
            dsimp only at h
            exact (ihEL env sm left d s2 h).trans (ihT env s left sm hpt)
      · -- exprLoop
        intro env s left d s2 h
        unfold exprLoop at h
        by_cases hplus : peekIs env s .PLUS
        · rw [if_pos hplus] at h
          rcases hpt : parseTerm fuel env s.advance with ⟨r, sm⟩
          rw [hpt] at h
          cases r with
          | error e => simp at h
          | ok right =>
              dsimp only at h
              rcases hcs : checkSafety sm.localMax env.ctx.maxComponents
                  (left.add right) with e2 | next
              · rw [hcs] at h; simp at h
              · rw [hcs] at h
                dsimp only at h
                exact (ihEL env sm next d s2 h).trans
                  (ihT env s.advance right sm hpt)
        · rw [if_neg hplus] at h
          by_cases hminus : peekIs env s .MINUS
          · rw [if_pos hminus] at h
            rcases hpt : parseTerm fuel env s.advance with ⟨r, sm⟩
            rw [hpt] at h
            cases r with
            | error e => simp at h
            | ok right =>
                dsimp only at h
                rcases hcs : checkSafety sm.localMax env.ctx.maxComponents
                    (left.sub right) with e2 | next
                · rw [hcs] at h; simp at h
                · rw [hcs] at h
                  dsimp only at h
                  exact (ihEL env sm next d s2 h).trans
                    (ihT env s.advance right sm hpt)
          · rw [if_neg hminus] at h
            have hs : s = s2 := congrArg Prod.snd h
            rw [← hs]
      · -- parseTerm
        intro env s d s2 h
        unfold parseTerm at h
        rcases hpf : parseFactor fuel env s with ⟨r, sm⟩
        rw [hpf] at h
        cases r with
        | error e => simp at h
        | ok left =>
            dsimp only at h
            exact (ihTL env sm left d s2 h).trans (ihF env s left sm hpf)
      · -- termLoop
        intro env s left d s2 h
        unfold termLoop at h
        by_cases hmul : peekIs env s .MUL
        · rw [if_pos hmul] at h
          rcases hpf : parseFactor fuel env s.advance with ⟨r, sm⟩
          rw [hpf] at h
          cases r with
          | error e => simp at h
          | ok right =>
              dsimp only at h
              rcases hstep : (if isScalar right then
                    (getScalar right).map (fun k => left.scale k)
                  else if isScalar left then
                    (getScalar left).map (fun k => right.scale k)
                  else Except.error
                    "Multiplication of two Distributions not supported (Scalar required)")
                  with e2 | mid
              · rw [hstep] at h; simp at h
              · rw [hstep] at h
                dsimp only at h
                rcases hcs : checkSafety sm.localMax env.ctx.maxComponents mid
                    with e3 | next
                · rw [hcs] at h; simp at h
                · rw [hcs] at h
                  dsimp only at h
                  exact (ihTL env sm next d s2 h).trans
                    (ihF env s.advance right sm hpf)
        · rw [if_neg hmul] at h
          by_cases hdiv : peekIs env s .DIV
          · rw [if_pos hdiv] at h
            rcases hpf : parseFactor fuel env s.advance with ⟨r, sm⟩
            rw [hpf] at h
            cases r with
            | error e => simp at h
            | ok right =>
                dsimp only at h
                rcases hstep : (if isScalar right then
                      match getScalar right with
                      | .error e => Except.error e
                      | .ok k =>
                          if k = 0 then Except.error "Division by Zero"
                          else Except.ok (left.scale ((1 : Q) / k))
                    else if isScalar left then
                      (getScalar left).map (fun k => right.reciprocal.scale k)
                    else Except.error "Division of two Distributions not supported")
                    with e2 | mid
                · rw [hstep] at h; simp at h
                · rw [hstep] at h
                  dsimp only at h
                  rcases hcs : checkSafety sm.localMax env.ctx.maxComponents mid
                      with e3 | next
                  · rw [hcs] at h; simp at h
                  · rw [hcs] at h
                    dsimp only at h
                    exact (ihTL env sm next d s2 h).trans
                      (ihF env s.advance right sm hpf)
          · rw [if_neg hdiv] at h
            have hs : s = s2 := congrArg Prod.snd h
            rw [← hs]
      · -- parseFactor
        intro env s d s2 h
        unfold parseFactor at h
        rcases hp : env.peek s with _ | t
        · rw [hp] at h; simp at h
        · rw [hp] at h
          dsimp only at h
          by_cases h1 : t.type = .NUMBER
          · rw [if_pos h1] at h
            have hs : s.advance = s2 := congrArg Prod.snd h
            rw [← hs]; rfl
          · rw [if_neg h1] at h
            by_cases h2 : t.type = .ID
            · rw [if_pos h2] at h
              by_cases h3 : peekIs env s.advance .LPAREN
              · rw [if_pos h3] at h
                exact ihFC env s.advance t.value d s2 h
              · rw [if_neg h3] at h
                have hs : s.advance = s2 := congrArg Prod.snd h
                rw [← hs]; rfl
            · rw [if_neg h2] at h
              by_cases h4 : t.type = .MINUS
              · rw [if_pos h4] at h
                rcases hpf : parseFactor fuel env s.advance with ⟨r, sm⟩
                rw [hpf] at h
                cases r with
                | error e => simp at h
                | ok f =>
                    dsimp only at h
                    have hs : sm = s2 := congrArg Prod.snd h
                    rw [← hs]
                    exact ihF env s.advance f sm hpf
              · rw [if_neg h4] at h
                by_cases h5 : t.type = .LPAREN
                · rw [if_pos h5] at h
                  rcases hpe : parseExpression fuel env s.advance with ⟨r, sm⟩
                  rw [hpe] at h
                  cases r with
                  | error e => simp at h
                  | ok expr =>
                      dsimp only at h
                      rcases hex : pExpect env sm .RPAREN with ⟨r2, s3⟩
                      rw [hex] at h
                      cases r2 with
                      | error e => simp at h
                      | ok tk =>
                          dsimp only at h
                          have hs : s3 = s2 := congrArg Prod.snd h
                          rw [← hs]
                          exact (pExpect_state_localMax env sm .RPAREN
                            (.ok tk) s3 hex).trans (ihE env s.advance expr sm hpe)
                · rw [if_neg h5] at h
                  simp at h
      · -- parseFunctionCall
        intro env s name d s2 h
        unfold parseFunctionCall at h
        rcases hpe1 : pExpect env s .LPAREN with ⟨r1, s1⟩
        rw [hpe1] at h
        cases r1 with
        | error e => simp at h
        | ok tk1 =>
            dsimp only at h
            have hs1 : s1.localMax = s.localMax :=
              pExpect_state_localMax env s .LPAREN (.ok tk1) s1 hpe1
            by_cases hrp : peekIs env s1 .RPAREN
            · rw [if_pos hrp] at h
              exact (finishCall_localMax env s1 name [] d s2 h).trans hs1
            · rw [if_neg hrp] at h
              by_cases hcfg : strUpper name = "CONFIG"
              · rw [if_pos hcfg] at h
                rcases hpe2 : parseExpression fuel env s1 with ⟨r2, sm2⟩
                rw [hpe2] at h
                cases r2 with
                | error e => simp at h
                | ok limitDist =>
                    dsimp only at h
                    rcases hgs : getScalar limitDist with e3 | limit
                    · rw [hgs] at h; simp at h
                    · rw [hgs] at h
                      dsimp only at h
                      rcases hpe3 : pExpect env sm2 .COMMA with ⟨r3, s3⟩
                      rw [hpe3] at h
                      cases r3 with
                      | error e => simp at h
                      | ok tk3 =>
                          dsimp only at h
                          rcases hpe4 : parseExpression fuel env
                              (s3.withLocalMax (some limit)) with ⟨r4, s5⟩
                          rw [hpe4] at h
                          cases r4 with
                          | error e => simp at h
                          | ok result =>
                              dsimp only at h
                              rcases hpe5 : pExpect env
                                  (s5.withLocalMax s3.localMax) .RPAREN
                                  with ⟨r5, s7⟩
                              rw [hpe5] at h
                              cases r5 with
                              | error e => simp at h
                              | ok tk5 =>
                                  dsimp only at h
                                  have hs7 : s7 = s2 := congrArg Prod.snd h
                                  rw [← hs7]
                                  have ha : s7.localMax = s3.localMax :=
                                    pExpect_state_localMax env
                                      (s5.withLocalMax s3.localMax) .RPAREN
                                      (.ok tk5) s7 hpe5
                                  have hb : s3.localMax = sm2.localMax :=
                                    pExpect_state_localMax env sm2 .COMMA
                                      (.ok tk3) s3 hpe3
                                  have hc : sm2.localMax = s1.localMax :=
                                    ihE env s1 limitDist sm2 hpe2
                                  exact ha.trans (hb.trans (hc.trans hs1))
              · rw [if_neg hcfg] at h
                rcases hta : tryParseArg fuel env s1 [] with ⟨r2, sm2⟩
                rw [hta] at h
                cases r2 with
                | error e => simp at h
                | ok args =>
                    dsimp only at h
                    exact (ihCL env sm2 name args d s2 h).trans
                      ((ihTA env s1 [] args sm2 hta).trans hs1)
      · -- commaLoop
        intro env s name args d s2 h
        unfold commaLoop at h
        by_cases hc : peekIs env s .COMMA
        · rw [if_pos hc] at h
          rcases hta : tryParseArg fuel env s.advance args with ⟨r, sm⟩
          rw [hta] at h
          cases r with
          | error e => simp at h
          | ok args2 =>
              dsimp only at h
              exact (ihCL env sm name args2 d s2 h).trans
                (ihTA env s.advance args args2 sm hta)
        · rw [if_neg hc] at h
          exact finishCall_localMax env s name args d s2 h
      · -- tryParseArg
        intro env s args d s2 h
        unfold tryParseArg at h
        rcases hp0 : env.peek s with _ | t0 <;>
          rcases hp1 : env.tokens.get? (s.pos + 1) with _ | t1 <;>
            rw [hp0, hp1] at h
        · rcases hpe : parseExpression fuel env s with ⟨r, sm⟩
          rw [hpe] at h
          cases r with
          | error e => simp at h
          | ok d0 =>
              dsimp only at h
              have hs : sm = s2 := congrArg Prod.snd h
              rw [← hs]
              exact ihE env s d0 sm hpe
        · rcases hpe : parseExpression fuel env s with ⟨r, sm⟩
          rw [hpe] at h
          cases r with
          | error e => simp at h
          | ok d0 =>
              dsimp only at h
              have hs : sm = s2 := congrArg Prod.snd h
              rw [← hs]
              exact ihE env s d0 sm hpe
        · rcases hpe : parseExpression fuel env s with ⟨r, sm⟩
          rw [hpe] at h
          cases r with
          | error e => simp at h
          | ok d0 =>
              dsimp only at h
              have hs : sm = s2 := congrArg Prod.snd h
              rw [← hs]
              exact ihE env s d0 sm hpe
        · dsimp only at h
          by_cases hid : t0.type = .ID ∧ t1.type = .COLON
          · rw [if_pos hid] at h
            rcases hpe : pExpect env s.advance.advance .ID with ⟨r, s3⟩
            rw [hpe] at h
            cases r with
            | error e => simp at h
            | ok endTok =>
                dsimp only at h
                rcases her : expandRange t0.value endTok.value with e2 | cells
                · rw [her] at h; simp at h
                · rw [her] at h
                  dsimp only at h
                  have hs : s3 = s2 := congrArg Prod.snd h
                  rw [← hs]
                  exact pExpect_state_localMax env s.advance.advance .ID
                    (.ok endTok) s3 hpe
          · rw [if_neg hid] at h
            rcases hpe : parseExpression fuel env s with ⟨r, sm⟩
            rw [hpe] at h
            cases r with
            | error e => simp at h
            | ok d0 =>
                dsimp only at h
                have hs : sm = s2 := congrArg Prod.snd h
                rw [← hs]
                exact ihE env s d0 sm hpe

/-- A cell that is circular with a pinned value: the C9 invariant. -/
def CircFrozen (id : String) (v : Dist) (g : Graph) : Prop :=
  ∃ c : Cell, g.findCell id = some c ∧ c.status = .circular ∧ c.value = v

theorem frozen_markDirty {id : String} {v : Dist} {g : Graph} (x : String)
    (h : CircFrozen id v g) : CircFrozen id v (g.markDirty x) := by
  obtain ⟨c, hc, hs, hv⟩ := h
  exact ⟨c, by rw [findCell_markDirty]; exact hc, hs, hv⟩

theorem frozen_ensure {id : String} {v : Dist} {g : Graph} (x : String)
    (h : CircFrozen id v g) : CircFrozen id v (g.ensureCell x) := by
  obtain ⟨c, hc, hs, hv⟩ := h
  exact ⟨c, findCell_ensure_of_some g x id c hc, hs, hv⟩

theorem frozen_modify_other {id : String} {v : Dist} {g : Graph}
    (id2 : String) (f : Cell → Cell) (hne : id ≠ id2)
    (h : CircFrozen id v g) : CircFrozen id v (g.modifyCell id2 f) := by
  obtain ⟨c, hc, hs, hv⟩ := h
  refine ⟨c, ?_, hs, hv⟩
  rw [findCell_modifyCell, if_neg hne]
  exact hc

theorem frozen_modify_preserve {id : String} {v : Dist} {g : Graph}
    (id2 : String) (f : Cell → Cell)
    (hf : ∀ c : Cell, c.status = .circular →
      (f c).status = .circular ∧ (f c).value = c.value)
    (h : CircFrozen id v g) : CircFrozen id v (g.modifyCell id2 f) := by
  obtain ⟨c, hc, hs, hv⟩ := h
  by_cases hid : id = id2
  · refine ⟨f c, ?_, (hf c hs).1, by rw [(hf c hs).2]; exact hv⟩
    rw [findCell_modifyCell, if_pos hid, hc]
    rfl
  · exact frozen_modify_other id2 f hid ⟨c, hc, hs, hv⟩

theorem frozen_foldl {id : String} {v : Dist} {β : Type}
    (step : Graph → β → Graph)
    (hstep : ∀ g b, CircFrozen id v g → CircFrozen id v (step g b)) :
    ∀ (l : List β) (g : Graph), CircFrozen id v g →
      CircFrozen id v (l.foldl step g) := by
  intro l
  induction l with
  | nil => exact fun g h => h
  | cons b rest ih => exact fun g h => ih (step g b) (hstep g b h)

theorem frozen_evaluateCellG {id : String} {v : Dist} {g : Graph}
    (id2 : String) (h : CircFrozen id v g) :
    CircFrozen id v (g.evaluateCellG id2) := by
  unfold Graph.evaluateCellG
  rcases hf2 : g.findCell id2 with _ | c
  · exact h
  · dsimp only
    by_cases hstat : c.status = .circular
    · rw [if_pos hstat]
      exact h
    · rw [if_neg hstat]
      have hne : id ≠ id2 := by
        intro hh
        obtain ⟨c0, hc0, hs0, _⟩ := h
        rw [hh, hf2] at hc0
        exact hstat (by cases hc0; exact hs0)
      by_cases hhd : (c.rawInput.toList.head? = some '=')
      · rw [if_pos hhd]
        rcases hev : evaluate (String.mk c.rawInput.toList.tail)
            ⟨fun rid => (g.getCellD rid).value, some g.maxComponents⟩ with e | v2
        · exact frozen_markDirty id2 (frozen_modify_other id2 _ hne h)
        · exact frozen_markDirty id2 (frozen_modify_other id2 _ hne h)
      · rw [if_neg hhd]
        exact frozen_markDirty id2 (frozen_modify_other id2 _ hne h)

theorem frozen_bfsGo {id : String} {v : Dist} :
    ∀ (fuel : Nat) (g : Graph) (queue dirty : List String),
      CircFrozen id v g → CircFrozen id v (bfsGo fuel g queue dirty).2 := by
  intro fuel
  induction fuel with
  | zero => exact fun g queue dirty h => h
  | succ fuel ih =>
      intro g queue dirty h
      unfold bfsGo
      rcases queue with _ | ⟨curr, rest⟩
      · exact h
      · dsimp only
        by_cases hin : dirty.contains curr
        · rw [if_pos hin]
          exact ih g rest dirty h
        · rw [if_neg hin]
          have h1 : CircFrozen id v (g.ensureCell curr) := frozen_ensure curr h
          by_cases hst : ((g.ensureCell curr).getCellD curr).status ≠ .circular
          · rw [if_pos hst]
            refine ih _ _ _ ?_
            by_cases hcur : id = curr
            · exfalso
              subst hcur
              obtain ⟨c0, hc0, hs0, _⟩ := h1
              apply hst
              unfold Graph.getCellD
              rw [hc0]
              exact hs0
            · exact frozen_markDirty curr
                (frozen_modify_other curr _ hcur h1)
          · rw [if_neg hst]
            exact ih _ _ _ h1

theorem frozen_execGo {id : String} {v : Dist} :
    ∀ (fuel : Nat) (g : Graph) (queue : List String)
      (m : List (String × Int)) (dirty : List String) (p : Nat),
      CircFrozen id v g →
      CircFrozen id v (execGo fuel g queue m dirty p).1 := by
  intro fuel
  induction fuel with
  | zero => exact fun g queue m dirty p h => h
  | succ fuel ih =>
      intro g queue m dirty p h
      unfold execGo
      rcases queue with _ | ⟨currId, rest⟩
      · exact h
      · dsimp only
        exact ih _ _ _ _ _
          (frozen_evaluateCellG currId (frozen_ensure currId h))

theorem frozen_markCircular {id : String} {v : Dist} {g : Graph}
    (m : List (String × Int)) (h : CircFrozen id v g) :
    CircFrozen id v (markCircular g m) := by
  unfold markCircular
  refine frozen_foldl _ ?_ m g h
  intro g2 e h2
  by_cases hd : (0 : Int) < e.2
  · rw [if_pos hd]
    refine frozen_markDirty e.1 (frozen_modify_preserve e.1 _ ?_ h2)
    intro c hc
    exact ⟨rfl, rfl⟩
  · rw [if_neg hd]
    exact h2

theorem frozen_ite_markCircular {id : String} {v : Dist}
    (P : Prop) (inst : Decidable P) (g0 g1 : Graph) (m : List (String × Int))
    (h : CircFrozen id v g0) (hg : g1 = g0) :
    CircFrozen id v (@ite _ P inst (markCircular g1 m) g0) := by
  by_cases hp : P
  · rw [if_pos hp, hg]
    exact frozen_markCircular m h
  · rw [if_neg hp]
    exact h

theorem frozen_recalculate {id : String} {v : Dist} {g : Graph}
    (startId : String) (h : CircFrozen id v g) :
    CircFrozen id v (g.recalculate startId) := by
  unfold Graph.recalculate
  exact frozen_ite_markCircular _ _ _ _ _
    (frozen_execGo _ _ _ _ _ _ (frozen_bfsGo _ _ _ _ h)) rfl

theorem frozen_updateDeps {id : String} {v : Dist} {g : Graph}
    (id2 : String) (newDeps : List String) (h : CircFrozen id v g) :
    CircFrozen id v (g.updateDeps id2 newDeps) := by
  unfold Graph.updateDeps
  dsimp only
  refine frozen_modify_preserve id2 _ (fun c hc => ⟨hc, rfl⟩) ?_
  refine frozen_foldl _ ?_ newDeps _ (frozen_foldl _ ?_ _ g h)
  · intro g2 dep h2
    by_cases hm : ((g.getCellD id2).dependencies).contains dep
    · rw [if_pos hm]
      exact h2
    · rw [if_neg hm]
      exact frozen_modify_preserve dep _ (fun c hc => ⟨hc, rfl⟩)
        (frozen_ensure dep h2)
  · intro g2 dep h2
    by_cases hm : newDeps.contains dep
    · rw [if_pos hm]
      exact h2
    · rw [if_neg hm]
      exact frozen_modify_preserve dep _ (fun c hc => ⟨hc, rfl⟩)
        (frozen_ensure dep h2)

theorem frozen_setCellInput {id : String} {v : Dist} {g : Graph}
    (id2 input : String) (h : CircFrozen id v g) :
    CircFrozen id v (g.setCellInput id2 input) := by
  unfold Graph.setCellInput
  dsimp only
  have h0 : CircFrozen id v (g.ensureCell id2) := frozen_ensure id2 h
  by_cases hsame : ((g.ensureCell id2).getCellD id2).rawInput = input
  · rw [if_pos hsame]
    exact h0
  · rw [if_neg hsame]
    exact frozen_recalculate id2
      (frozen_updateDeps id2 _
        (frozen_markDirty id2
          (frozen_modify_preserve id2 _ (fun c hc => ⟨hc, rfl⟩) h0)))

theorem frozen_applyInputs {id : String} {v : Dist} :
    ∀ (steps : List (String × String)) (g : Graph),
      CircFrozen id v g → CircFrozen id v (g.applyInputs steps) := by
  intro steps
  induction steps with
  | nil => exact fun g h => h
  | cons step rest ih =>
      intro g h
      exact ih _ (frozen_setCellInput step.1 step.2 h)

/-- C9: once a cell's status is `circular`, no sequence of `set_input`
steps — on this cell or any other — ever re-evaluates it: its status
stays `circular` and its value is unchanged. -/
theorem circular_cell_is_permanent (g : Graph) (id : String)
    (h : (g.getCellD id).status = .circular)
    (steps : List (String × String)) :
    ((g.applyInputs steps).getCellD id).status = .circular ∧
    ((g.applyInputs steps).getCellD id).value = (g.getCellD id).value := by
  have hfz : CircFrozen id (g.getCellD id).value g := by
    rcases hf : g.findCell id with _ | c
    · exfalso
      unfold Graph.getCellD at h
      rw [hf] at h
      simp [Cell.new] at h
    · refine ⟨c, hf, ?_, ?_⟩
      · unfold Graph.getCellD at h
        rw [hf] at h
        exact h
      · unfold Graph.getCellD
        rw [hf]
        rfl
  obtain ⟨c2, hc2, hs2, hv2⟩ := frozen_applyInputs steps g hfz
  constructor
  · unfold Graph.getCellD
    rw [hc2]
    exact hs2
  · unfold Graph.getCellD
    rw [hc2]
    exact hv2

/-- C9 (witness): in the concrete cycle graph, rewriting `A1` to the
plain number `5` (and touching another cell) leaves `A1` circular with
its value unchanged. -/
theorem circular_cell_is_permanent_witness :
    (cycleDemo.getCellD "A1").status = .circular ∧
    (((cycleDemo.applyInputs [("A1", "5"), ("B1", "=A1")]).getCellD "A1").status =
        .circular ∧
      ((cycleDemo.applyInputs [("A1", "5"), ("B1", "=A1")]).getCellD "A1").value =
        (cycleDemo.getCellD "A1").value) :=
  ⟨by decide,
   circular_cell_is_permanent cycleDemo "A1" (by decide)
     [("A1", "5"), ("B1", "=A1")]⟩

/-- C6 (counterexample): when CONFIG's second argument raises an error
(`UNIFORM(3, 2)`), the parser's local component-limit override is NOT
restored before the error propagates: it still holds the CONFIG limit 5
although it was unset before the call. -/
theorem config_error_keeps_override :
    (parseFunctionCall 100 c6ErrEnv ⟨1, none⟩ "CONFIG").1 =
      .error "UNIFORM min must be < max" ∧
    (parseFunctionCall 100 c6ErrEnv ⟨1, none⟩ "CONFIG").2.localMax = some ⟨5, 1⟩ ∧
    some (⟨5, 1⟩ : Q) ≠ (⟨1, none⟩ : PState).localMax := by decide

/-- C6 (amended): after a **successful** function-call parse — CONFIG
included — the local component-limit override equals its value before
the call; on the error path the override is not restored (the enclosing
evaluation is abandoned, see the counterexample). -/
theorem config_restores_override_on_success (fuel : Nat) (env : PEnv)
    (s : PState) (name : String) (d : Dist) (s2 : PState)
    (h : parseFunctionCall fuel env s name = (.ok d, s2)) :
    s2.localMax = s.localMax :=
  (parse_localMax_all fuel).2.2.2.2.2.1 env s name d s2 h

/-- C6 (witness for the amended theorem): the successful call
`CONFIG(5, CONST(1))` ends with the override back at `none`. -/
theorem config_restores_override_witness :
    parseFunctionCall 100 c6OkEnv ⟨1, none⟩ "CONFIG" =
      (.ok ⟨[.atom 1 1]⟩, ⟨9, none⟩) ∧
    (⟨9, none⟩ : PState).localMax = (⟨1, none⟩ : PState).localMax :=
  ⟨by decide,
   config_restores_override_on_success 100 c6OkEnv ⟨1, none⟩ "CONFIG"
     ⟨[.atom 1 1]⟩ ⟨9, none⟩ (by decide)⟩

/-- C4 (witness for the amended theorem) at the text cell `abc`. -/
theorem evaluateCell_nonformula_ok_witness :
    (c4Graph.findCell "A1" = some ⟨"A1", "abc", ⟨[]⟩, .ok, none, [], []⟩ ∧
      (⟨"A1", "abc", ⟨[]⟩, .ok, none, [], []⟩ : Cell).status ≠ .circular ∧
      ("abc" : String).toList.head? ≠ some '=') ∧
    ((c4Graph.evaluateCellG "A1").getCellD "A1").status = .ok := by
  constructor
  · exact ⟨by decide, by decide, by decide⟩
  · exact (evaluateCell_nonformula_ok c4Graph "A1"
      ⟨"A1", "abc", ⟨[]⟩, .ok, none, [], []⟩ (by decide) (by decide) (by decide)).1

end Bunpu
